import Mathlib

/-!
Shallow embedding of the core of `mackee/go-readability` (content scoring,
candidate selection, page-type classification, preprocessing) in Lean 4.

Modelling conventions:
* Go's `*dom.VElement` / `*dom.VText` pointer tree is embedded as the inductive
  `VNode`; node identity is represented by the node's path (list of child
  indices) from the document element, as suggested by the design notes of the
  specification (arena/index modelling).  The mutable `ReadabilityData`
  annotation becomes an explicit association list from paths to scores.
* Go `float64` score arithmetic is modelled exactly over `ℚ`; `int` is `Int`,
  `len(string)` is the UTF-8 byte size.  Go's `int(x)` float-to-int conversion
  truncates toward zero (`goTrunc`).
* Code places where Go would dereference a nil pointer (absent body) return
  `none`: fallible code is wrapped in `Option`.
* Go regular expressions used by the code are plain alternations of literals
  (plus a few anchors); they are embedded as the equivalent explicit
  substring/anchor tests.
-/

/-- Characters matched by Go's `unicode.IsSpace` (used by `strings.TrimSpace`). -/
def isUnicodeSpace (c : Char) : Bool :=
  let n := c.toNat
  (n == 9) || (n == 10) || (n == 11) || (n == 12) || (n == 13) || (n == 32) ||
  (n == 0x85) || (n == 0xA0) || (n == 0x1680) ||
  (Nat.ble 0x2000 n && Nat.ble n 0x200A) ||
  (n == 0x2028) || (n == 0x2029) || (n == 0x202F) || (n == 0x205F) || (n == 0x3000)

/-- Characters matched by `\s` in Go's regexp package (ASCII class): tab,
newline, vertical tab is excluded, form feed, carriage return, space. -/
def isRegexSpace (c : Char) : Bool :=
  let n := c.toNat
  (n == 9) || (n == 10) || (n == 12) || (n == 13) || (n == 32)

/-- Go `strings.TrimSpace`. -/
def trimS (s : String) : String :=
  String.mk (((s.data.dropWhile isUnicodeSpace).reverse.dropWhile isUnicodeSpace).reverse)

/-- One pass of `Regexps.Normalize` (`\s{2,}` replaced by a single space):
every maximal run of two or more regexp-whitespace characters becomes one
space, while a single whitespace character is left as it is.  The `fuel`
argument makes the recursion structural; it is called with the length of the
list, which suffices since every step consumes at least one character. -/
def normCharsF : Nat → List Char → List Char
  | 0, l => l
  | _ + 1, [] => []
  | _ + 1, [c] => [c]
  | fuel + 1, c1 :: c2 :: rest =>
      if isRegexSpace c1 && isRegexSpace c2 then
        ' ' :: normCharsF fuel (rest.dropWhile isRegexSpace)
      else
        c1 :: normCharsF fuel (c2 :: rest)

/-- `Regexps.Normalize.ReplaceAllString(s, " ")`. -/
def normalizeWS (s : String) : String := String.mk (normCharsF s.data.length s.data)

/-- Go `len(s)`: the UTF-8 byte length of a string. -/
def utf8Len (s : String) : Nat := s.utf8ByteSize

/-- Go `int(x)` conversion from `float64`: truncation toward zero. -/
def goTrunc (q : ℚ) : Int := if q < 0 then -((-q).floor) else q.floor

/-- Whether `sub` is a prefix of `l` (character-wise). -/
def charsAt : List Char → List Char → Bool
  | [], _ => true
  | _ :: _, [] => false
  | c :: cs, d :: ds => c == d && charsAt cs ds

/-- Whether `sub` occurs in `l` (`strings.Contains` on character lists). -/
def hasSub : List Char → List Char → Bool
  | sub, [] => charsAt sub []
  | sub, d :: ds => charsAt sub (d :: ds) || hasSub sub ds

/-- Go `strings.Contains(s, sub)`. -/
def containsSub (s sub : String) : Bool := hasSub sub.data s.data

/-- Go `strings.HasPrefix(s, pre)`. -/
def hasPrefixS (s pre : String) : Bool := charsAt pre.data s.data

/-- Go `strings.HasSuffix(s, post)` (also `regexp` suffix anchors). -/
def hasSuffixS (s post : String) : Bool := charsAt post.data.reverse s.data.reverse

/-- Go `strings.ToLower` (the tags and patterns involved are ASCII). -/
def toLowerStr (s : String) : String := String.mk (s.data.map Char.toLower)

/-- The virtual DOM node type (`dom.VNode`): a text node or an element with a
tag name, attribute map and ordered children. -/
inductive VNode where
  | text (content : String)
  | elem (tag : String) (attrs : List (String × String)) (children : List VNode)

/-- Paths from the document element: node identity in the embedding. -/
abbrev DomPath := List Nat

/-- A virtual DOM document (`dom.VDocument`): the document element together
with the designated body element (a path; `none` models a nil `Body`). -/
structure VDocument where
  documentElement : VNode
  body : Option DomPath

/-- Attribute lookup (`VElement.GetAttribute`): empty string when absent. -/
def getAttribute (attrs : List (String × String)) (name : String) : String :=
  (attrs.lookup name).getD ""

/-- Attribute presence (`VElement.HasAttribute`). -/
def hasAttribute (attrs : List (String × String)) (name : String) : Bool :=
  (attrs.lookup name).isSome

/-- `VElement.ClassName()`. -/
def classNameOf (attrs : List (String × String)) : String := getAttribute attrs "class"

/-- `VElement.ID()`. -/
def idOf (attrs : List (String × String)) : String := getAttribute attrs "id"

mutual

/-- Resolve a path to the node it denotes, if any. -/
def getNode? : VNode → DomPath → Option VNode
  | n, [] => some n
  | .text _, _ :: _ => none
  | .elem _ _ cs, i :: p => getNodeList? cs i p

/-- Helper for `getNode?`: resolve index `i` in a child list, then path `p`. -/
def getNodeList? : List VNode → Nat → DomPath → Option VNode
  | [], _, _ => none
  | c :: _, 0, p => getNode? c p
  | _ :: cs, i + 1, p => getNodeList? cs i p

end

mutual

/-- Preorder enumeration underlying `dom.GetElementsByTagName`: all elements
(with their absolute paths) in the subtree rooted at the given node whose tag
equals the (already lowercased) query, or all elements when the query is `*`.
The element tag is compared as stored, exactly as in the Go code. -/
def elemsByTag (q : String) (p : DomPath) : VNode → List (DomPath × VNode)
  | .text _ => []
  | .elem t a cs =>
      (if q == "*" || q == t then [(p, VNode.elem t a cs)] else []) ++
        elemsByTagChildren q p 0 cs

/-- Helper for `elemsByTag`: children of an element, in order. -/
def elemsByTagChildren (q : String) (p : DomPath) (i : Nat) : List VNode → List (DomPath × VNode)
  | [] => []
  | c :: cs => elemsByTag q (p ++ [i]) c ++ elemsByTagChildren q p (i + 1) cs

end

/-- `dom.GetElementsByTagName(element, tagName)`: lowercases the query, then
matches in preorder.  `basePath` is the absolute path of `element`. -/
def GetElementsByTagName (element : VNode) (basePath : DomPath) (tagName : String) :
    List (DomPath × VNode) :=
  elemsByTag (toLowerStr tagName) basePath element

mutual

/-- The text accumulation of `dom.GetInnerText` before trimming: iterates the
children, inserting a single space when the index is positive and the running
text is nonempty, appending text-node content directly and nonempty
recursively-extracted (trimmed) element text. -/
def innerTextAcc : Nat → String → List VNode → String
  | _, acc, [] => acc
  | i, acc, c :: cs =>
      let acc1 := if i > 0 && acc != "" then acc ++ " " else acc
      let acc2 :=
        match c with
        | .text s => acc1 ++ s
        | .elem t a gs =>
            let ct := innerTextTrim (.elem t a gs)
            if ct != "" then acc1 ++ ct else acc1
      innerTextAcc (i + 1) acc2 cs

/-- `dom.GetInnerText(node, false)`: accumulated text of a node, trimmed. -/
def innerTextTrim : VNode → String
  | .text s => trimS s
  | .elem _ _ cs => trimS (innerTextAcc 0 "" cs)

end

/-- `dom.GetInnerText(node, normalizeSpaces)`. -/
def GetInnerText (node : VNode) (normalizeSpaces : Bool) : String :=
  if normalizeSpaces then normalizeWS (innerTextTrim node) else innerTextTrim node

/-- `dom.GetLinkDensity(element)`: the summed (truncated, `#`-weighted) link
text length over the normalized text length, `0` for an element without text. -/
def GetLinkDensity (element : VNode) : ℚ :=
  let textLength := utf8Len (GetInnerText element true)
  if textLength == 0 then 0
  else
    let links := GetElementsByTagName element [] "a"
    let linkLength : Int := links.foldl
      (fun acc l =>
        let href := match l.2 with
          | .elem _ a _ => getAttribute a "href"
          | .text _ => ""
        let coefficient : ℚ := if hasPrefixS href "#" then 3 / 10 else 1
        acc + goTrunc ((utf8Len (GetInnerText l.2 true) : ℚ) * coefficient)) 0
    (linkLength : ℚ) / (textLength : ℚ)

/-- Direct child elements of a node (text children not counted). -/
def childElementCount : VNode → Nat
  | .text _ => 0
  | .elem _ _ cs => (cs.filter (fun c => match c with | .elem _ _ _ => true | _ => false)).length

/-- `dom.GetTextDensity(element)`: normalized text length over the direct child
element count (at least 1), `0` for an element without text. -/
def GetTextDensity (element : VNode) : ℚ :=
  let textLength := utf8Len (GetInnerText element true)
  if textLength == 0 then 0
  else
    let cnt := childElementCount element
    let cnt := if cnt == 0 then 1 else cnt
    (textLength : ℚ) / (cnt : ℚ)

/-- `dom.IsProbablyVisible(node)`. -/
def IsProbablyVisible (attrs : List (String × String)) : Bool :=
  let style := getAttribute attrs "style"
  !(containsSub style "display: none" || containsSub style "visibility: hidden" ||
    hasAttribute attrs "hidden" || (getAttribute attrs "aria-hidden" == "true"))

/-- The comma characters matched by `util.Regexps.Commas`. -/
def isCommaChar (c : Char) : Bool :=
  let n := c.toNat
  (n == 0x2C) || (n == 0x60C) || (n == 0xFE50) || (n == 0xFE10) || (n == 0xFE11) ||
  (n == 0x2E41) || (n == 0x2E54) || (n == 0x2E52) || (n == 0xFF0C) || (n == 0x3001)

/-- `len(util.Regexps.Commas.FindAllString(s, -1))`: the number of comma
characters in the string (each alternative of the pattern is one character). -/
def commaCount (s : String) : Nat := (s.data.filter isCommaChar).length

/-- `util.Regexps.Positive.MatchString`: the pattern is an alternation of plain
substrings. -/
def positiveMatch (s : String) : Bool :=
  ["article", "body", "content", "entry", "hentry", "h-entry", "main", "page",
   "pagination", "post", "text", "blog", "story"].any (containsSub s)

/-- `util.Regexps.Negative.MatchString`: plain substring alternatives plus the
anchored alternatives `^hid$`, ` hid$`, ` hid `, `^hid `. -/
def negativeMatch (s : String) : Bool :=
  ["-ad-", "hidden", "banner", "combx", "comment", "com-", "contact", "footer",
   "gdpr", "masthead", "media", "meta", "outbrain", "promo", "related", "scroll",
   "share", "shoutbox", "sidebar", "skyscraper", "sponsor", "shopping", "tags",
   "widget"].any (containsSub s) ||
  (s == "hid") || hasSuffixS s " hid" || containsSub s " hid " || hasPrefixS s "hid "

/-- `GetClassWeight(node)`: −25/+25 per negative/positive match, independently
for the class attribute and the id attribute. -/
def GetClassWeight (attrs : List (String × String)) : ℚ :=
  let weight : ℚ := 0
  let className := classNameOf attrs
  let weight := if className != "" then
      (if negativeMatch className then weight - 25 else weight) +
        (if positiveMatch className then 25 else 0)
    else weight
  let id := idOf attrs
  if id != "" then
    (if negativeMatch id then weight - 25 else weight) +
      (if positiveMatch id then 25 else 0)
  else weight

/-- The tag-based initial score of `InitializeNode` (case-insensitive switch on
the tag name). -/
def tagBaseScore (tagName : String) : ℚ :=
  let t := toLowerStr tagName
  if t == "div" then 5
  else if t == "pre" || t == "td" || t == "blockquote" then 3
  else if t == "address" || t == "ol" || t == "ul" || t == "dl" || t == "dd" ||
          t == "dt" || t == "li" || t == "form" then -3
  else if t == "h1" || t == "h2" || t == "h3" || t == "h4" || t == "h5" ||
          t == "h6" || t == "th" then -5
  else 0

/-- `InitializeNode(node)`: the fresh `ReadabilityData` content score, i.e. the
tag-based base score plus the class weight. -/
def InitializeNode (tagName : String) (attrs : List (String × String)) : ℚ :=
  tagBaseScore tagName + GetClassWeight attrs

example : positiveMatch "article content" = true ∧ negativeMatch "article content" = false := by
  decide

example : negativeMatch "comment sidebar" = true ∧ positiveMatch "sidebar" = false := by decide

/-- `util.DefaultTagsToScore`. -/
def DefaultTagsToScore : List String :=
  ["section", "h2", "h3", "h4", "h5", "h6", "p", "td", "pre"]

/-- The mutable per-element `ReadabilityData.ContentScore` annotations, as an
association list from node paths to scores; absence of an entry models a nil
`ReadabilityData` pointer. -/
abbrev ScoreMap := List (DomPath × ℚ)

/-- Store a score for a path (update in place, or append a fresh entry). -/
def smSet : ScoreMap → DomPath → ℚ → ScoreMap
  | [], p, v => [(p, v)]
  | (q, w) :: rest, p, v =>
      if q = p then (q, v) :: rest else (q, w) :: smSet rest p v

/-- The parent of a path (`node.Parent()`): `none` at the document element. -/
def parentPath : DomPath → Option DomPath
  | [] => none
  | p => some p.dropLast

/-- All ancestor paths of a node, nearest first (the parent-pointer chain). -/
def ancestorChain (p : DomPath) : List DomPath :=
  (List.range p.length).map (fun k => p.take (p.length - (k + 1)))

/-- `dom.GetNodeAncestors(node, maxDepth)`: ancestors nearest first, all of
them when `maxDepth ≤ 0`, else at most `maxDepth` of them. -/
def GetNodeAncestors (p : DomPath) (maxDepth : Int) : List DomPath :=
  if maxDepth ≤ 0 then ancestorChain p else (ancestorChain p).take maxDepth.toNat

/-- The score divider of `FindMainCandidates`: 1 at level 0, 2 at level 1,
`3 * level` at level ≥ 2. -/
def scoreDivider (level : Nat) : ℚ :=
  if level = 0 then 1 else if level = 1 then 2 else 3 * (level : ℚ)

/-- The state of the scoring loop of `FindMainCandidates`: the score
annotations and the discovered candidates in discovery order. -/
structure ScoreState where
  scores : ScoreMap
  cands : List DomPath

/-- One ancestor visit of the scoring loop of `FindMainCandidates`: initialize
the ancestor (and record it as a candidate) when it carries no annotation yet,
then add `contentScore / scoreDivider level` to its annotation. -/
def visitAncestor (root : VNode) (contentScore : ℚ) (st : ScoreState)
    (level : Nat) (anc : DomPath) : ScoreState :=
  let st1 :=
    match st.scores.lookup anc with
    | none =>
        let initScore :=
          match getNode? root anc with
          | some (.elem t a _) => InitializeNode t a
          | _ => 0
        ScoreState.mk (smSet st.scores anc initScore) (st.cands ++ [anc])
    | some _ => st
  match st1.scores.lookup anc with
  | some v => { st1 with scores := smSet st1.scores anc (v + contentScore / scoreDivider level) }
  | none => st1

/-- One scorable element of the scoring loop of `FindMainCandidates`: skip it
when its inner text is shorter than 25 bytes or it has no ancestors, otherwise
compute the base contribution (1 + comma count + capped length bonus) and visit
up to 3 ancestor levels. -/
def scoreLeaf (root : VNode) (st : ScoreState) (p : DomPath) : ScoreState :=
  match getNode? root p with
  | none => st
  | some n =>
      let innerText := GetInnerText n false
      if utf8Len innerText < 25 then st
      else
        let ancestors := GetNodeAncestors p 3
        if ancestors.length = 0 then st
        else
          let contentScore : ℚ :=
            1 + (commaCount innerText : ℚ) + ((min (utf8Len innerText / 100) 3 : Nat) : ℚ)
          ancestors.enum.foldl
            (fun s la => visitAncestor root contentScore s la.1 la.2) st

/-- Tag name (lowercased) of the node at a path, or `""` when the path does not
denote an element. -/
def tagLowerAt (root : VNode) (p : DomPath) : String :=
  match getNode? root p with
  | some (.elem t _ _) => toLowerStr t
  | _ => ""

/-- The parent-promotion walk of `FindMainCandidates`: starting from the parent
of the candidate, walk up while the parent exists and is not the body tag,
replacing the tracked element whenever the parent carries a strictly greater
score.  The `fuel` argument (called with the candidate path length, which
bounds the chain) makes the recursion structural. -/
def promoteWalk (root : VNode) (scores : ScoreMap) :
    Nat → DomPath → Option DomPath → DomPath
  | 0, current, _ => current
  | _ + 1, current, none => current
  | fuel + 1, current, some par =>
      if tagLowerAt root par == "body" then current
      else
        let current1 :=
          match scores.lookup par, scores.lookup current with
          | some sp, some sc => if sp > sc then par else current
          | _, _ => current
        promoteWalk root scores fuel current1 (parentPath par)

/-- The per-candidate adjustment of `FindMainCandidates`: multiply the score by
`(1 − linkDensity)`, then by `(1 + min(textDensity/10, 0.1))` when the text
density is positive, then promote along the parent chain and record the
promoted element (with its current score) unless it is already recorded. -/
def adjustCandidate (root : VNode) (acc : ScoreMap × List (DomPath × ℚ))
    (candidate : DomPath) : ScoreMap × List (DomPath × ℚ) :=
  let (scores, scoredCandidates) := acc
  match scores.lookup candidate, getNode? root candidate with
  | some s0, some el =>
      let linkDensity := GetLinkDensity el
      let s1 := s0 * (1 - linkDensity)
      let scores := smSet scores candidate s1
      let textDensity := GetTextDensity el
      let (scores, _) :=
        if textDensity > 0 then
          (smSet scores candidate (s1 * (1 + min (textDensity / 10) (1 / 10))), ())
        else (scores, ())
      let currentCandidate :=
        promoteWalk root scores candidate.length candidate (parentPath candidate)
      match scores.lookup currentCandidate with
      | some finalScore =>
          if scoredCandidates.any (fun sc => sc.1 = currentCandidate) then
            (scores, scoredCandidates)
          else (scores, scoredCandidates ++ [(currentCandidate, finalScore)])
      | none => (scores, scoredCandidates)
  | _, _ => acc

/-- One full inner pass of the bubble sort of `FindMainCandidates` (descending
by score; adjacent elements are swapped exactly when the left score is strictly
smaller). -/
def bubblePass : List (DomPath × ℚ) → List (DomPath × ℚ)
  | [] => []
  | [x] => [x]
  | x :: y :: rest =>
      if x.2 < y.2 then y :: bubblePass (x :: rest) else x :: bubblePass (y :: rest)

/-- `n` passes of the bubble sort. -/
def bubbleIter : Nat → List (DomPath × ℚ) → List (DomPath × ℚ)
  | 0, l => l
  | n + 1, l => bubbleIter n (bubblePass l)

/-- The sort of `FindMainCandidates`: `len − 1` bubble passes, descending. -/
def sortByScoreDesc (l : List (DomPath × ℚ)) : List (DomPath × ℚ) :=
  bubbleIter (l.length - 1) l

/-- `FindMainCandidates(doc, nbTopCandidates)`.  Returns the candidate paths in
rank order together with the final score annotations (the Go function returns
the elements and leaves the annotations on the tree).  Returns `none` exactly
where the Go code would dereference a nil or detached body. -/
def FindMainCandidates (doc : VDocument) (nbTopCandidates : Int) :
    Option (List DomPath × ScoreMap) :=
  let nb := if nbTopCandidates ≤ 0 then 5 else nbTopCandidates
  let articleElements := GetElementsByTagName doc.documentElement [] "article"
  if articleElements.length = 1 then some (articleElements.map Prod.fst, []) else
  let mainElements := GetElementsByTagName doc.documentElement [] "main"
  if mainElements.length = 1 then some (mainElements.map Prod.fst, []) else
  match doc.body with
  | none => none
  | some bp =>
      match getNode? doc.documentElement bp with
      | some (.elem bt ba bcs) =>
          let bodyNode := VNode.elem bt ba bcs
          let elementsToScore := DefaultTagsToScore.foldl
            (fun acc tag => acc ++ (GetElementsByTagName bodyNode bp tag).map Prod.fst) []
          let st := elementsToScore.foldl (scoreLeaf doc.documentElement) (ScoreState.mk [] [])
          let (finalScores, scoredCandidates) :=
            st.cands.foldl (adjustCandidate doc.documentElement) (st.scores, [])
          let sorted := sortByScoreDesc scoredCandidates
          let topCandidates :=
            (sorted.map Prod.fst).take (min (sorted.length : Int) nb).toNat
          if topCandidates.length = 0 then some ([bp], finalScores)
          else some (topCandidates, finalScores)
      | _ => none

/-- The page type (`PageType`): `article` or `other`; the Go zero value `""`
(no forced type) is modelled as `Option PageType = none` at option sites. -/
inductive PageType where
  | article
  | other
deriving DecidableEq

/-- `IsSemanticTag(element)`: the element is a `main`/`article` tag, has
"content" in its class or id, or has a direct `main`/`article` element child. -/
def IsSemanticTag : VNode → Bool
  | .text _ => false
  | .elem t a cs =>
      let tagName := toLowerStr t
      if tagName == "main" || tagName == "article" then true
      else
        let className := toLowerStr (classNameOf a)
        let id := toLowerStr (idOf a)
        if containsSub className "content" || containsSub id "content" then true
        else
          cs.any fun c =>
            match c with
            | .elem ct _ _ =>
                let childTagName := toLowerStr ct
                childTagName == "main" || childTagName == "article"
            | .text _ => false

/-- `IsSignificantNode(node)`: semantic structural tags, landmark roles, or
common class/id patterns. -/
def IsSignificantNode : VNode → Bool
  | .text _ => false
  | .elem t a _ =>
      let tagName := toLowerStr t
      if tagName == "header" || tagName == "footer" || tagName == "main" ||
         tagName == "article" || tagName == "aside" || tagName == "nav" then true
      else
        let role := toLowerStr (getAttribute a "role")
        if role == "banner" || role == "contentinfo" || role == "main" ||
           role == "navigation" || role == "complementary" then true
        else
          let className := toLowerStr (classNameOf a)
          let id := toLowerStr (idOf a)
          ["header", "footer", "main", "content", "article", "navigation",
           "nav", "sidebar", "menu", "banner", "mainContent", "mainContainer"].any
            fun pat => containsSub className pat || containsSub id pat

/-- Regexp `^\d+$`. -/
def matchesDigitOnly (s : String) : Bool :=
  !s.data.isEmpty && s.data.all Char.isDigit

/-- Regexp `^[a-zA-Z0-9-_]+$`. -/
def matchesAlphaNumeric (s : String) : Bool :=
  !s.data.isEmpty && s.data.all fun c => c.isAlphanum || c == '-' || c == '_'

/-- Regexp `\d` (`MatchString`: contains at least one digit). -/
def matchesHasDigit (s : String) : Bool := s.data.any Char.isDigit

/-- After the scheme: `[^/]+/?$` (a nonempty host and an optional final slash). -/
def hostOnlyTail (rest : List Char) : Bool :=
  let host := rest.takeWhile (fun c => c != '/')
  let tail := rest.drop host.length
  !host.isEmpty && (tail.isEmpty || tail == ['/'])

/-- After the scheme: `[^/]+/[^/]+/?$`. -/
def hostSegTail (rest : List Char) : Bool :=
  let host := rest.takeWhile (fun c => c != '/')
  let tail := rest.drop host.length
  !host.isEmpty &&
    match tail with
    | '/' :: tail1 =>
        let seg := tail1.takeWhile (fun c => c != '/')
        let tail2 := tail1.drop seg.length
        !seg.isEmpty && (tail2.isEmpty || tail2 == ['/'])
    | _ => false

/-- Regexp `^https?://[^/]+/?$` (a top-level/bare-domain URL). -/
def matchesTopLevelUrl (s : String) : Bool :=
  if hasPrefixS s "https://" then hostOnlyTail (s.data.drop 8)
  else if hasPrefixS s "http://" then hostOnlyTail (s.data.drop 7)
  else false

/-- Regexp `^https?://[^/]+/[^/]+/?$` (a single-segment/user-page URL). -/
def matchesUserPageUrl (s : String) : Bool :=
  if hasPrefixS s "https://" then hostSegTail (s.data.drop 8)
  else if hasPrefixS s "http://" then hostSegTail (s.data.drop 7)
  else false

/-- The direct children of a node. -/
def childrenOf : VNode → List VNode
  | .text _ => []
  | .elem _ _ cs => cs

/-- The card-like direct children of the body (`class` contains `card`, `item`
or `entry`, case-insensitively), counted by `ClassifyPageType`. -/
def cardCount (bodyNode : VNode) : Nat :=
  ((childrenOf bodyNode).filter fun c =>
    match c with
    | .elem _ ca _ =>
        let className := toLowerStr (classNameOf ca)
        containsSub className "card" || containsSub className "item" ||
          containsSub className "entry"
    | .text _ => false).length

/-- `headingCount` of `ClassifyPageType`: the `h1`, `h2` and `h3` descendants
of the body. -/
def headingCount (bodyNode : VNode) (bp : DomPath) : Nat :=
  (GetElementsByTagName bodyNode bp "h1").length +
  (GetElementsByTagName bodyNode bp "h2").length +
  (GetElementsByTagName bodyNode bp "h3").length

/-- `listElementCount` of `ClassifyPageType`: `article` and `li` descendants
plus card-like children. -/
def listElementCount (bodyNode : VNode) (bp : DomPath) : Nat :=
  (GetElementsByTagName bodyNode bp "article").length +
  (GetElementsByTagName bodyNode bp "li").length + cardCount bodyNode

/-- `hasIndexPageCharacteristics` of `ClassifyPageType`: many list elements,
many links together with many images, or a degenerate heading count. -/
def hasIndexPageCharacteristics (bodyNode : VNode) (bp : DomPath) : Bool :=
  listElementCount bodyNode bp > 10 ||
    ((GetElementsByTagName bodyNode bp "a").length > 50 &&
      (GetElementsByTagName bodyNode bp "img").length > 20) ||
    headingCount bodyNode bp > 10 || headingCount bodyNode bp == 0

/-- `bodyLinkDensity` of the score-parity check in `ClassifyPageType`: the
number of `a` descendants of the body divided by the body text length (note:
a count over a length, not the anchor-text fraction `GetLinkDensity`
computes). -/
def bodyLinkDensity (bodyNode : VNode) (bp : DomPath) : ℚ :=
  let linkCount := (GetElementsByTagName bodyNode bp "a").length
  let bodyTextLength := utf8Len (GetInnerText bodyNode false)
  if bodyTextLength > 0 then (linkCount : ℚ) / (bodyTextLength : ℚ) else 0

/-- The part of `ClassifyPageType` after the URL-pattern shortcut: the
structural-count heuristics, semantic-tag check, length/density checks, score
parity check, global link/text ratio and final fallback, in the order of the
Go code (the `stepN` bindings are the successive fall-through continuations). -/
def classifyByStructure (doc : VDocument) (scores : ScoreMap)
    (candidates : List DomPath) (charThreshold : Int) : Option PageType :=
  match candidates with
  | [] => some PageType.other
  | topCandidate :: _ =>
      match doc.body with
      | none => none
      | some bp =>
          match getNode? doc.documentElement bp with
          | some (.elem bt ba bcs) =>
              let bodyNode := VNode.elem bt ba bcs
              let linkCount := (GetElementsByTagName bodyNode bp "a").length
              if hasIndexPageCharacteristics bodyNode bp then some PageType.other
              else
                match getNode? doc.documentElement topCandidate with
                | none => none
                | some topNode =>
                    let textLength := GetInnerText topNode false
                    let linkDensity := GetLinkDensity topNode
                    let step7 : Option PageType :=
                      if utf8Len textLength ≥ 140 ∧ linkDensity ≤ 1 / 2 then
                        (if listElementCount bodyNode bp > 10 then some PageType.other
                         else some PageType.article)
                      else some PageType.other
                    let step6 : Option PageType :=
                      let bodyTextLength := utf8Len (GetInnerText bodyNode false)
                      if linkCount > 30 ∧
                          (bodyTextLength : Int) < goTrunc ((charThreshold : ℚ) * (3 / 2)) then
                        some PageType.other
                      else step7
                    let step5 : Option PageType :=
                      if candidates.length ≥ 2 then
                        let topScore := (scores.lookup topCandidate).getD 0
                        let secondScore :=
                          match candidates[1]? with
                          | some c1 => (scores.lookup c1).getD 0
                          | none => 0
                        let scoreRatio := if topScore > 0 then secondScore / topScore else 1
                        if scoreRatio > 4 / 5 then
                          if bodyLinkDensity bodyNode bp > 1 / 4 ∨ linkDensity > 3 / 10 then
                            some PageType.other
                          else step6
                        else step6
                      else step6
                    let step4 : Option PageType :=
                      if (utf8Len textLength : Int) ≥ charThreshold ∧ linkDensity ≤ 1 / 2 ∧
                          headingCount bodyNode bp ≥ 1 ∧ headingCount bodyNode bp ≤ 10 then
                        some PageType.article
                      else step5
                    if IsSemanticTag topNode then
                      if (utf8Len textLength : Int) ≥ charThreshold / 2 ∧
                          linkDensity ≤ 1 / 2 then
                        (if listElementCount bodyNode bp > 10 then some PageType.other
                         else some PageType.article)
                      else if utf8Len textLength < 100 then some PageType.other
                      else step4
                    else step4
          | _ => none

/-- `ClassifyPageType(doc, candidates, charThreshold, url)`: the URL-pattern
shortcut followed by the structural cascade.  The score annotations the Go code
reads off the candidate elements are passed explicitly as `scores`. -/
def ClassifyPageType (doc : VDocument) (scores : ScoreMap)
    (candidates : List DomPath) (charThreshold : Int) (url : String) :
    Option PageType :=
  let charThreshold := if charThreshold ≤ 0 then 500 else charThreshold
  if url != "" then
    if containsSub url "/articles/" then
      some (if candidates.length > 0 then PageType.article else PageType.other)
    else
      let urlParts := url.splitOn "/"
      let lastPart := urlParts.getLastD ""
      let lastPartWithoutExt := (lastPart.splitOn ".").headD ""
      if matchesDigitOnly lastPartWithoutExt ||
          (matchesAlphaNumeric lastPartWithoutExt &&
            matchesHasDigit lastPartWithoutExt &&
            decide (utf8Len lastPartWithoutExt ≥ 5)) then
        some (if candidates.length > 0 then PageType.article else PageType.other)
      else if matchesTopLevelUrl url || matchesUserPageUrl url then
        match candidates with
        | c0 :: _ =>
            match getNode? doc.documentElement c0 with
            | some n0 =>
                let textLength := GetInnerText n0 false
                if (utf8Len textLength : Int) > charThreshold * 2 ∧
                    GetLinkDensity n0 < 3 / 10 then
                  some PageType.article
                else some PageType.other
            | none => none
        | [] => some PageType.other
      else classifyByStructure doc scores candidates charThreshold
  else classifyByStructure doc scores candidates charThreshold

/-- `tagsToRemove` of the preprocessor, in source order. -/
def tagsToRemove : List String :=
  ["aside", "nav", "header", "footer", "script", "style", "noscript", "iframe",
   "form", "button", "object", "embed", "applet", "map", "dialog"]

/-- `isLikelyAd(element)`: the combined `class + " " + id` string matches one of
the (case-insensitive) ad patterns, or the element has ad-specific attributes.
The anchored patterns `^ad$` and `^ads$` require the whole combined string to
be exactly `ad`/`ads`. -/
def isLikelyAd (attrs : List (String × String)) : Bool :=
  let combinedString := classNameOf attrs ++ " " ++ idOf attrs
  let lower := toLowerStr combinedString
  (["ad-", "advert", "banner", "sponsor", "promo", "google-ad", "adsense",
    "doubleclick", "amazon", "affiliate", "commercial", "paid", "shopping",
    "recommendation"].any (containsSub lower) ||
   lower == "ad" || lower == "ads") ||
  (getAttribute attrs "role" == "advertisement" ||
   hasAttribute attrs "data-ad" ||
   hasAttribute attrs "data-ad-client" ||
   hasAttribute attrs "data-ad-slot")

mutual

/-- Remove from a tree every element strictly below the root whose tag/attrs
satisfy `drop` (together with its whole subtree).  This is the reachable-tree
effect of the Go snapshot-then-unlink removal loops: the root itself is never
unlinked (it has no parent), and elements inside a removed subtree disappear
with it. -/
def pruneTree (drop : String → List (String × String) → Bool) : VNode → VNode
  | .text s => .text s
  | .elem t a cs => .elem t a (pruneChildren drop cs)

/-- Helper for `pruneTree`: the filtered child list. -/
def pruneChildren (drop : String → List (String × String) → Bool) :
    List VNode → List VNode
  | [] => []
  | c :: cs =>
      match c with
      | .text s => .text s :: pruneChildren drop cs
      | .elem t a _ =>
          if drop t a then pruneChildren drop cs
          else pruneTree drop c :: pruneChildren drop cs

end

mutual

/-- Track the path of a node through `pruneTree`: the new path of the node that
was at the given path, or `none` when that node was removed (or the path is
dangling). -/
def prunePath (drop : String → List (String × String) → Bool) :
    VNode → DomPath → Option DomPath
  | _, [] => some []
  | .text _, _ :: _ => none
  | .elem _ _ cs, i :: p => pruneChildrenPath drop cs i p

/-- Helper for `prunePath`: the tracked child index gets shifted down by the
number of dropped earlier siblings. -/
def pruneChildrenPath (drop : String → List (String × String) → Bool) :
    List VNode → Nat → DomPath → Option DomPath
  | [], _, _ => none
  | .text _ :: _, 0, p => if p.isEmpty then some [0] else none
  | .elem t a gs :: _, 0, p =>
      if drop t a then none
      else (prunePath drop (.elem t a gs) p).map (fun q => 0 :: q)
  | c :: cs, i + 1, p =>
      let kept : Nat :=
        match c with
        | .text _ => 1
        | .elem t a _ => if drop t a then 0 else 1
      (pruneChildrenPath drop cs i p).map
        (fun q => match q with | j :: q1 => (j + kept) :: q1 | [] => [])

end

mutual

/-- Unlink the node at the given (nonempty) path from its parent's child list,
dropping its whole subtree; with an empty path (no parent) the tree is
unchanged, matching the Go `element.Parent() != nil` guard. -/
def removeChildAt : VNode → DomPath → VNode
  | n, [] => n
  | .text s, _ :: _ => .text s
  | .elem t a cs, i :: p => .elem t a (removeChildAtList cs i p)

/-- Helper for `removeChildAt`. -/
def removeChildAtList : List VNode → Nat → DomPath → List VNode
  | [], _, _ => []
  | _ :: cs, 0, [] => cs
  | c :: cs, 0, q :: p => removeChildAt c (q :: p) :: cs
  | c :: cs, i + 1, p => c :: removeChildAtList cs i p

end

mutual

/-- Replace the subtree at a path. -/
def setSubtree : VNode → DomPath → VNode → VNode
  | _, [], nw => nw
  | .text s, _ :: _, _ => .text s
  | .elem t a cs, i :: p, nw => .elem t a (setSubtreeList cs i p nw)

/-- Helper for `setSubtree`. -/
def setSubtreeList : List VNode → Nat → DomPath → VNode → List VNode
  | [], _, _, _ => []
  | c :: cs, 0, p, nw => setSubtree c p nw :: cs
  | c :: cs, i + 1, p, nw => c :: setSubtreeList cs i p nw

end

/-- The removal predicate of one `removeUnwantedTags` pass: the query is
lowercased, the stored tag is compared as stored. -/
def tagDrop (tagName : String) : String → List (String × String) → Bool :=
  fun t _ => toLowerStr tagName == t

/-- One pass of `removeUnwantedTags`: unlink every reachable element with the
given tag; the designated body path is re-tracked through the removal. -/
def removeTagPass (dd : VDocument) (tagName : String) : VDocument :=
  let drop := tagDrop tagName
  let newBody :=
    match dd.body with
    | none => none
    | some bp => prunePath drop dd.documentElement bp
  VDocument.mk (pruneTree drop dd.documentElement) newBody

/-- `removeUnwantedTags(doc)`: one removal pass per noise tag, in order. -/
def removeUnwantedTags (d : VDocument) : VDocument :=
  tagsToRemove.foldl removeTagPass d

/-- `removeAds(doc)`: remove every likely-ad element found under (and
including) the body.  When the body element itself is likely an ad and has a
parent it is unlinked whole (the document no longer reaches a body); otherwise
the ad elements below it are pruned.  A document whose body is absent is left
unchanged (the specification: preprocessing a document with no body is a
no-op). -/
def removeAds (d : VDocument) : VDocument :=
  match d.body with
  | none => d
  | some bp =>
      match getNode? d.documentElement bp with
      | some (.elem bt ba bcs) =>
          if isLikelyAd ba ∧ bp ≠ [] then
            VDocument.mk (removeChildAt d.documentElement bp) none
          else
            VDocument.mk
              (setSubtree d.documentElement bp
                (pruneTree (fun _ a => isLikelyAd a) (.elem bt ba bcs)))
              (some bp)
      | _ => d

/-- `PreprocessDocument(doc)`: noise-tag removal then ad removal. -/
def PreprocessDocument (d : VDocument) : VDocument :=
  removeAds (removeUnwantedTags d)

/-- The attributes of a node (elements only). -/
def attrsOf : VNode → List (String × String)
  | .text _ => []
  | .elem _ a _ => a

/-- The walk `current := el; while current ≠ nil ∧ current ≠ body` of
`FindStructuralElements`, as the list of visited paths (the start node
included, the body excluded).  `fuel` is called with `p.length + 1`, which
bounds the parent chain. -/
def chainUntil (stop : DomPath) : Nat → DomPath → List DomPath
  | 0, _ => []
  | fuel + 1, p =>
      if p = stop then []
      else
        p :: (match parentPath p with
              | none => []
              | some pp => chainUntil stop fuel pp)

/-- The class/id patterns of `AddSignificantElementsByClassOrId`. -/
def significantPatterns : List String :=
  ["content", "main", "article", "post", "entry", "body", "text", "story",
   "container", "wrapper", "page", "blog", "section"]

/-- `AddSignificantElementsByClassOrId(body, &potentialNodes)`: append every
element under the body whose lowercased `class + " " + id` contains one of the
significant patterns and is not already present. -/
def AddSignificantElementsByClassOrId (bodyNode : VNode) (bp : DomPath)
    (potentialNodes : List DomPath) : List DomPath :=
  (GetElementsByTagName bodyNode bp "*").foldl
    (fun acc pn =>
      let a := attrsOf pn.2
      let combinedString := toLowerStr (classNameOf a) ++ " " ++ toLowerStr (idOf a)
      if significantPatterns.any (containsSub combinedString) ∧ ¬ acc.contains pn.1 then
        acc ++ [pn.1]
      else acc)
    potentialNodes

/-- `FindStructuralElements(doc)`: header detection (unique `<header>` tag, or
role/id/class patterns preferring direct body children), footer detection
(unique `<footer>` tag, or bottom-up role/id/class patterns excluding nodes
inside the chosen header), and the other significant nodes (semantic tags and
significant class/id patterns, excluding nodes inside header or footer,
restricted to visible significant/semantic nodes). -/
def FindStructuralElements (doc : VDocument) :
    Option (Option DomPath × Option DomPath × List DomPath) :=
  match doc.body with
  | none => none
  | some bp =>
      match getNode? doc.documentElement bp with
      | some (.elem bt ba bcs) =>
          let bodyNode := VNode.elem bt ba bcs
          let allElements := GetElementsByTagName bodyNode bp "*"
          let headerTags := GetElementsByTagName doc.documentElement [] "header"
          let header :=
            if headerTags.length = 1 then (headerTags.map Prod.fst).head?
            else
              allElements.foldl
                (fun acc pn =>
                  let a := attrsOf pn.2
                  let role := toLowerStr (getAttribute a "role")
                  let id := toLowerStr (idOf a)
                  let className := toLowerStr (classNameOf a)
                  if role == "banner" || id == "header" || id == "masthead" ||
                      containsSub className "header" ||
                      containsSub className "masthead" then
                    match acc with
                    | none => some pn.1
                    | some h =>
                        if parentPath pn.1 = some bp ∧ ¬ parentPath h = some bp then
                          some pn.1
                        else acc
                  else acc)
                none
          let footerTags := GetElementsByTagName doc.documentElement [] "footer"
          let footer :=
            if footerTags.length = 1 then (footerTags.map Prod.fst).head?
            else
              allElements.reverse.foldl
                (fun acc pn =>
                  let a := attrsOf pn.2
                  let role := toLowerStr (getAttribute a "role")
                  let id := toLowerStr (idOf a)
                  let className := toLowerStr (classNameOf a)
                  if role == "contentinfo" || id == "footer" || id == "colophon" ||
                      containsSub className "footer" ||
                      containsSub className "site-info" then
                    match acc with
                    | some _ => acc
                    | none =>
                        let isInsideHeader :=
                          match header with
                          | some h => (chainUntil bp (pn.1.length + 1) pn.1).contains h
                          | none => false
                        if isInsideHeader then none else some pn.1
                  else acc)
                none
          let potentialNodes :=
            (GetElementsByTagName bodyNode bp "main").map Prod.fst ++
            (GetElementsByTagName bodyNode bp "article").map Prod.fst ++
            (GetElementsByTagName bodyNode bp "section").map Prod.fst ++
            (GetElementsByTagName bodyNode bp "aside").map Prod.fst ++
            (GetElementsByTagName bodyNode bp "nav").map Prod.fst
          let potentialNodes := AddSignificantElementsByClassOrId bodyNode bp potentialNodes
          let otherSignificantNodes :=
            potentialNodes.foldl
              (fun acc p =>
                let isInsideHeaderOrFooter :=
                  (chainUntil bp (p.length + 1) p).any
                    (fun cur => header = some cur ∨ footer = some cur)
                let alreadyIncluded : Bool := acc.contains p
                if ¬ isInsideHeaderOrFooter ∧ ¬ alreadyIncluded then
                  match getNode? doc.documentElement p with
                  | some n =>
                      if IsProbablyVisible (attrsOf n) &&
                          (IsSignificantNode n || IsSemanticTag n) then
                        acc ++ [p]
                      else acc
                  | none => acc
                else acc)
              []
          some (header, footer, otherSignificantNodes)
      | _ => none

mutual

/-- `CountNodes` on a non-nil node: the node itself plus its descendants (text
nodes count 1 each). -/
def countN : VNode → Int
  | .text _ => 1
  | .elem _ _ cs => 1 + countNList cs

/-- Helper for `countN`. -/
def countNList : List VNode → Int
  | [] => 0
  | c :: cs => countN c + countNList cs

end

/-- `CountNodes(element)`: 0 for nil. -/
def CountNodes : Option VNode → Int
  | none => 0
  | some n => countN n

/-- `ReadabilityOptions` (the `Parser` placeholder field of the Go struct is
not part of the algorithm).  The Go zero value `ForcedPageType = ""` is
`none`. -/
structure ReadabilityOptions where
  CharThreshold : Int
  NbTopCandidates : Int
  GenerateAriaTree : Bool
  ForcedPageType : Option PageType

/-- `DefaultOptions()`. -/
def DefaultOptions : ReadabilityOptions :=
  ReadabilityOptions.mk 500 5 false none

/-- `ReadabilityArticle`, restricted to the algorithmic fields: the metadata
fields `Title`/`Byline` (computed by the JSON-LD/meta-tag metadata extractor,
which is orthogonal to scoring and classification) and the always-nil
`AriaTree` are omitted. -/
structure ReadabilityArticle where
  Root : Option DomPath
  NodeCount : Int
  PageTypeR : PageType
  Header : Option DomPath
  Footer : Option DomPath
  OtherSignificantNodes : List DomPath

/-- `ExtractContent(doc, options)`: find candidates, select the top candidate
as content when it clears the threshold and link-density bound, determine the
page type (forced value wins, else article iff content was found, else the
classifier), and detect structural elements when the type is article but no
content was found. -/
def ExtractContent (doc : VDocument) (options : ReadabilityOptions) :
    Option ReadabilityArticle :=
  let charThreshold := if options.CharThreshold ≤ 0 then 500 else options.CharThreshold
  let nbTopCandidates :=
    if options.NbTopCandidates ≤ 0 then 5 else options.NbTopCandidates
  match FindMainCandidates doc nbTopCandidates with
  | none => none
  | some (candidates, scores) =>
      let contentStep : Option (Option DomPath) :=
        match candidates with
        | [] => some none
        | c0 :: _ =>
            match getNode? doc.documentElement c0 with
            | none => none
            | some n0 =>
                let textLength := utf8Len (GetInnerText n0 false)
                let linkDensity := GetLinkDensity n0
                if (textLength : Int) ≥ charThreshold ∧ linkDensity ≤ 1 / 2 then
                  some (some c0)
                else some none
      match contentStep with
      | none => none
      | some articleContent =>
          let pageTypeStep : Option PageType :=
            match options.ForcedPageType with
            | some pt => some pt
            | none =>
                if articleContent.isSome then some PageType.article
                else ClassifyPageType doc scores candidates charThreshold ""
          match pageTypeStep with
          | none => none
          | some pageType =>
              let structuralStep :=
                if pageType = PageType.article ∧ articleContent = none then
                  FindStructuralElements doc
                else some (none, none, [])
              match structuralStep with
              | none => none
              | some (header, footer, otherSignificantNodes) =>
                  let rootNode := articleContent.bind (getNode? doc.documentElement)
                  some (ReadabilityArticle.mk articleContent (CountNodes rootNode)
                    pageType header footer otherSignificantNodes)

/-- `Extract(html, options)` after the external HTML parser (`ParseHTML` is the
out-of-scope parser collaborator, so the model starts from the parsed
document): preprocess, fill in the option defaults — in particular the forced
page type becomes `article` when unset — and extract. -/
def Extract (doc : VDocument) (options : ReadabilityOptions) :
    Option ReadabilityArticle :=
  let doc := PreprocessDocument doc
  let options1 := ReadabilityOptions.mk
    (if options.CharThreshold ≤ 0 then 500 else options.CharThreshold)
    (if options.NbTopCandidates ≤ 0 then 5 else options.NbTopCandidates)
    options.GenerateAriaTree
    (match options.ForcedPageType with
     | none => some PageType.article
     | some pt => some pt)
  ExtractContent doc options1

mutual

/-- No element strictly below this node satisfies `drop`: the tree is a
fixpoint of `pruneTree drop`. -/
def noDrops (drop : String → List (String × String) → Bool) : VNode → Bool
  | .text _ => true
  | .elem _ _ cs => noDropsList drop cs

/-- Helper for `noDrops`. -/
def noDropsList (drop : String → List (String × String) → Bool) : List VNode → Bool
  | [] => true
  | c :: cs =>
      (match c with
       | .text _ => true
       | .elem t a _ => !drop t a && noDrops drop c) && noDropsList drop cs

end

mutual

/-- The frame relation of the preprocessor: `Prunes n m` holds when `m` is
obtained from `n` purely by unlinking whole element subtrees — no node is
created, no surviving element changes its tag or attributes, no surviving text
node changes its content, and the relative order of remaining children is
preserved. -/
inductive Prunes : VNode → VNode → Prop where
  | text (s : String) : Prunes (.text s) (.text s)
  | elem (t : String) (a : List (String × String)) (cs cs' : List VNode) :
      PrunesList cs cs' → Prunes (.elem t a cs) (.elem t a cs')

/-- The child-list form of `Prunes`: each remaining child is a pruned version
of a distinct original child, in order; only element children may be dropped. -/
inductive PrunesList : List VNode → List VNode → Prop where
  | nil : PrunesList [] []
  | keep (c c' : VNode) (cs cs' : List VNode) :
      Prunes c c' → PrunesList cs cs' → PrunesList (c :: cs) (c' :: cs')
  | drop (t : String) (a : List (String × String)) (gs : List VNode)
      (cs cs' : List VNode) :
      PrunesList cs cs' → PrunesList (.elem t a gs :: cs) cs'

end

/-- A string of `n` copies of `c` (for building fixture texts). -/
def repChar (n : Nat) (c : Char) : String := String.mk (List.replicate n c)

/-- Fixture: a 140-character `div`, the top candidate of the parity-check
counterexample document. -/
def c6TopNode : VNode := VNode.elem "div" [] [VNode.text (repChar 140 'x')]

/-- Fixture: a body whose anchor holds a large share of the text (anchor-text
fraction 60/209 > 1/4) while holding only one link. -/
def c6BodyNode : VNode :=
  VNode.elem "body" []
    [VNode.elem "h2" [] [VNode.text "Heading"],
     c6TopNode,
     VNode.elem "a" [("href", "/x")] [VNode.text (repChar 60 'y')]]

/-- Fixture: the parity-check counterexample document. -/
def docC6 : VDocument :=
  VDocument.mk (VNode.elem "html" [] [c6BodyNode]) (some [0])

/-- Fixture: candidate list for `docC6` (the `div`, then the `h2`). -/
def c6Candidates : List DomPath := [[0, 1], [0, 0]]

/-- Fixture: equal scores for both candidates of `docC6`. -/
def c6Scores : ScoreMap := [([0, 1], 1), ([0, 0], 1)]

/-- Fixture: top candidate of the amended-rule witness document, a `div` whose
anchor holds 60 of its 161 text characters. -/
def c6WTopNode : VNode :=
  VNode.elem "div" []
    [VNode.text (repChar 100 'x'),
     VNode.elem "a" [("href", "/x")] [VNode.text (repChar 60 'y')]]

/-- Fixture: body of the amended-rule witness document. -/
def c6WBodyNode : VNode :=
  VNode.elem "body" []
    [VNode.elem "h2" [] [VNode.text "Heading"], c6WTopNode]

/-- Fixture: the amended-rule witness document. -/
def docC6W : VDocument :=
  VDocument.mk (VNode.elem "html" [] [c6WBodyNode]) (some [0])

/-- The empty-body document `<html><body></body></html>` of spec Scenario C. -/
def docScenarioC : VDocument :=
  VDocument.mk (VNode.elem "html" [] [VNode.elem "body" [] []]) (some [0])


/-- The designated body path, when present, resolves to a node of the tree
(documents produced by the parser have their body element in the tree). -/
def BodyResolvable (dd : VDocument) : Prop :=
  ∀ bp, dd.body = some bp → (getNode? dd.documentElement bp).isSome = true

theorem smSet_lookup_self (sm : ScoreMap) (p : DomPath) (v : ℚ) :
    (smSet sm p v).lookup p = some v := by
  induction sm with
  | nil => simp [smSet, List.lookup]
  | cons e rest ih =>
      obtain ⟨q, w⟩ := e
      by_cases h : q = p
      · subst h
        simp [smSet, List.lookup]
      · simp only [smSet, if_neg h, List.lookup]
        have : (p == q) = false := by
          simp [beq_eq_false_iff_ne]
          exact fun hh => h hh.symm
        simp [this, ih]

theorem smSet_lookup_other (sm : ScoreMap) (p q : DomPath) (v : ℚ) (h : q ≠ p) :
    (smSet sm p v).lookup q = sm.lookup q := by
  induction sm with
  | nil =>
      have : (q == p) = false := by simp [beq_eq_false_iff_ne]; exact h
      simp [smSet, List.lookup, this]
  | cons e rest ih =>
      obtain ⟨r, w⟩ := e
      by_cases hr : r = p
      · subst hr
        have : (q == r) = false := by simp [beq_eq_false_iff_ne]; exact h
        simp [smSet, List.lookup, this]
      · simp only [smSet, if_neg hr, List.lookup]
        by_cases hq : q = r
        · subst hq
          simp
        · have : (q == r) = false := by simp [beq_eq_false_iff_ne]; exact hq
          simp [this, ih]

theorem scoreDivider_pos (lv : Nat) : 0 < scoreDivider lv := by
  unfold scoreDivider
  split
  · norm_num
  · split
    · norm_num
    · rename_i h0 h1
      have : 2 ≤ lv := by omega
      have : (2 : ℚ) ≤ (lv : ℚ) := by exact_mod_cast this
      nlinarith

theorem visitAncestor_lookup_preserved (root : VNode) (c : ℚ) (st : ScoreState)
    (lv : Nat) (anc q : DomPath) (v : ℚ) (hc : 0 ≤ c)
    (h : st.scores.lookup q = some v) :
    ∃ d : ℚ, 0 ≤ d ∧
      (visitAncestor root c st lv anc).scores.lookup q = some (v + d) ∧
      List.count q (visitAncestor root c st lv anc).cands = List.count q st.cands := by
  unfold visitAncestor
  by_cases hq : anc = q
  · subst hq
    refine ⟨c / scoreDivider lv, ?_, ?_, ?_⟩
    · exact div_nonneg hc (le_of_lt (scoreDivider_pos lv))
    · simp only [h, smSet_lookup_self]
    · simp only [h]
  · have hq' : q ≠ anc := fun hh => hq hh.symm
    rcases hlk : st.scores.lookup anc with _ | w
    · simp only [hlk, smSet_lookup_self]
      refine ⟨0, le_refl 0, ?_, ?_⟩
      · rw [smSet_lookup_other _ _ _ _ hq', smSet_lookup_other _ _ _ _ hq', h, add_zero]
      · simp only [List.count_append]
        have : List.count q [anc] = 0 := by
          rw [List.count_eq_zero]
          simp [hq']
        omega
    · simp only [hlk]
      refine ⟨0, le_refl 0, ?_, by trivial⟩
      rw [smSet_lookup_other _ _ _ _ hq', h, add_zero]

theorem visitFold_lookup_preserved (root : VNode) (c : ℚ) (hc : 0 ≤ c)
    (l : List (Nat × DomPath)) (st : ScoreState) (q : DomPath) (v : ℚ)
    (h : st.scores.lookup q = some v) :
    ∃ d : ℚ, 0 ≤ d ∧
      (l.foldl (fun s la => visitAncestor root c s la.1 la.2) st).scores.lookup q
        = some (v + d) ∧
      List.count q (l.foldl (fun s la => visitAncestor root c s la.1 la.2) st).cands
        = List.count q st.cands := by
  induction l generalizing st v with
  | nil => exact ⟨0, le_refl 0, by simpa using h, by trivial⟩
  | cons la rest ih =>
      obtain ⟨d1, hd1, hlk1, hcount1⟩ :=
        visitAncestor_lookup_preserved root c st la.1 la.2 q v hc h
      obtain ⟨d2, hd2, hlk2, hcount2⟩ := ih (visitAncestor root c st la.1 la.2) (v + d1) hlk1
      refine ⟨d1 + d2, by linarith, ?_, ?_⟩
      · simpa [add_assoc] using hlk2
      · simpa [hcount1] using hcount2

/-- C7: within one scorable-leaf step of `FindMainCandidates`, an element that
already carries a `ReadabilityData` annotation is never re-initialized — its
annotation survives and only grows by a nonnegative sum of score contributions
— and it is not recorded as a (new) candidate again. -/
theorem c7_initialize_at_most_once (root : VNode) (st : ScoreState) (p q : DomPath)
    (v : ℚ) (h : st.scores.lookup q = some v) :
    ∃ d : ℚ, 0 ≤ d ∧
      (scoreLeaf root st p).scores.lookup q = some (v + d) ∧
      List.count q (scoreLeaf root st p).cands = List.count q st.cands := by
  unfold scoreLeaf
  rcases hn : getNode? root p with _ | n
  · exact ⟨0, le_refl 0, by simpa using h, by trivial⟩
  · by_cases hlen : utf8Len (GetInnerText n false) < 25
    · simp only [if_pos hlen]
      exact ⟨0, le_refl 0, by simpa using h, by trivial⟩
    · simp only [if_neg hlen]
      by_cases hanc : (GetNodeAncestors p 3).length = 0
      · simp only [if_pos hanc]
        exact ⟨0, le_refl 0, by simpa using h, by trivial⟩
      · simp only [if_neg hanc]
        apply visitFold_lookup_preserved
        · have h1 : (0 : ℚ) ≤ (commaCount (GetInnerText n false) : ℚ) := by positivity
        
          have h2 : (0 : ℚ) ≤
              ((min (utf8Len (GetInnerText n false) / 100) 3 : Nat) : ℚ) := by positivity
          linarith
        · exact h

/-- C7 witness: a state in which the element `[0]` already carries annotation
5 keeps an annotation of the form `5 + d` with `d ≥ 0` and is not appended to
the candidate list again by a scorable-leaf step. -/
theorem c7_witness :
    ∃ d : ℚ, 0 ≤ d ∧
      (scoreLeaf (VNode.elem "html" [] [VNode.elem "body" [] []])
        (ScoreState.mk [([0], 5)] [[0]]) [0, 0]).scores.lookup [0] = some (5 + d) ∧
      List.count [0] (scoreLeaf (VNode.elem "html" [] [VNode.elem "body" [] []])
        (ScoreState.mk [([0], 5)] [[0]]) [0, 0]).cands =
        List.count [0] (ScoreState.mk ([([0], 5)] : ScoreMap) [[0]]).cands :=
  c7_initialize_at_most_once (VNode.elem "html" [] [VNode.elem "body" [] []])
    (ScoreState.mk [([0], 5)] [[0]]) [0, 0] [0] 5 (by decide)

/-- C8: the increment one ancestor visit adds to an already-initialized
ancestor at level `L` is exactly `contribution / scoreDivider L`, where the
divider is 1 at level 0, 2 at level 1 and `3·L` at levels `L ≥ 2`; for a fixed
nonnegative contribution the grandparent increment (level 1) is at most the
parent increment (level 0) and the great-grandparent increment (level 2) is at
most the grandparent increment. -/
theorem c8_score_decay_with_distance (root : VNode) (st : ScoreState) (c : ℚ)
    (hc : 0 ≤ c) (lv : Nat) (anc : DomPath) (v : ℚ)
    (h : st.scores.lookup anc = some v) :
    (visitAncestor root c st lv anc).scores.lookup anc
        = some (v + c / scoreDivider lv) ∧
    scoreDivider 0 = 1 ∧ scoreDivider 1 = 2 ∧
    (∀ L : Nat, 2 ≤ L → scoreDivider L = 3 * (L : ℚ)) ∧
    c / scoreDivider 1 ≤ c / scoreDivider 0 ∧
    c / scoreDivider 2 ≤ c / scoreDivider 1 := by
  refine ⟨?_, ?_, ?_, ?_, ?_, ?_⟩
  · unfold visitAncestor
    simp only [h, smSet_lookup_self]
  · simp [scoreDivider]
  · simp [scoreDivider]
  · intro L hL
    unfold scoreDivider
    rw [if_neg (by omega), if_neg (by omega)]
  · have h0 : scoreDivider 0 = 1 := by simp [scoreDivider]
    have h1 : scoreDivider 1 = 2 := by simp [scoreDivider]
    rw [h0, h1]
    rw [div_one]
    linarith [div_le_self hc (by norm_num : (1:ℚ) ≤ 2)]
  · have h1 : scoreDivider 1 = 2 := by simp [scoreDivider]
    have h2 : scoreDivider 2 = 6 := by norm_num [scoreDivider]
    rw [h1, h2]
    rw [div_le_div_iff₀ (by norm_num) (by norm_num)]
    linarith

/-- C8 witness: with contribution 2 and an ancestor holding annotation 5, the
level-1 visit adds exactly `2 / scoreDivider 1`, and the divider facts and
decay inequalities hold. -/
theorem c8_witness :
    (visitAncestor (VNode.elem "html" [] []) 2
        (ScoreState.mk [([0], 5)] [[0]]) 1 [0]).scores.lookup [0]
        = some (5 + 2 / scoreDivider 1) ∧
    scoreDivider 0 = 1 ∧ scoreDivider 1 = 2 ∧
    (∀ L : Nat, 2 ≤ L → scoreDivider L = 3 * (L : ℚ)) ∧
    (2 : ℚ) / scoreDivider 1 ≤ 2 / scoreDivider 0 ∧
    (2 : ℚ) / scoreDivider 2 ≤ 2 / scoreDivider 1 :=
  c8_score_decay_with_distance (VNode.elem "html" [] [])
    (ScoreState.mk [([0], 5)] [[0]]) 2 (by norm_num) 1 [0] 5 (by decide)

theorem getClassWeight_bounds (attrs : List (String × String)) :
    -50 ≤ GetClassWeight attrs ∧ GetClassWeight attrs ≤ 50 := by
  simp only [GetClassWeight]
  split_ifs <;> norm_num

/-- C5 counterexample: no element can obtain a class-weight contribution of
100 — each of the class and id attributes contributes at most +25, so the
total never exceeds 50 (and, symmetrically, never drops below −50). -/
theorem c5_counterexample : ¬ ∃ attrs : List (String × String),
    GetClassWeight attrs = 100 := by
  rintro ⟨attrs, h⟩
  have := (getClassWeight_bounds attrs).2
  rw [h] at this
  norm_num at this

/-- C5 amended: `GetClassWeight` adds, independently for the class attribute
value and the id attribute value, +25 on a positive-pattern match and −25 on a
negative-pattern match (both can apply to the same attribute and cancel), so
its total ranges over [−50, +50], and both extremes are attainable. -/
theorem c5_class_weight_range :
    (∀ attrs : List (String × String),
      -50 ≤ GetClassWeight attrs ∧ GetClassWeight attrs ≤ 50) ∧
    GetClassWeight [("class", "article"), ("id", "content")] = 50 ∧
    GetClassWeight [("class", "comment"), ("id", "sidebar")] = -50 := by
  refine ⟨getClassWeight_bounds, ?_, ?_⟩
  · have hc : classNameOf [("class", "article"), ("id", "content")] = "article" := by decide
    have hi : idOf [("class", "article"), ("id", "content")] = "content" := by decide
    have h1 : positiveMatch "article" = true := by decide
    have h2 : negativeMatch "article" = false := by decide
    have h3 : positiveMatch "content" = true := by decide
    have h4 : negativeMatch "content" = false := by decide
    rw [GetClassWeight.eq_def, hc, hi]
    simp [h1, h2, h3, h4]
    norm_num
  · have hc : classNameOf [("class", "comment"), ("id", "sidebar")] = "comment" := by decide
    have hi : idOf [("class", "comment"), ("id", "sidebar")] = "sidebar" := by decide
    have h1 : positiveMatch "comment" = false := by decide
    have h2 : negativeMatch "comment" = true := by decide
    have h3 : positiveMatch "sidebar" = false := by decide
    have h4 : negativeMatch "sidebar" = true := by decide
    rw [GetClassWeight.eq_def, hc, hi]
    simp [h1, h2, h3, h4]
    norm_num

/-- C1: the single-semantic-tag shortcut.  If exactly one `<article>` element
exists in the whole document, `FindMainCandidates` returns exactly that element
as the sole candidate; if the `<article>` count is not one and exactly one
`<main>` element exists, it returns that `<main>` element (the code checks
`article` first, which disambiguates the case where both counts are one).  In
both cases the returned score annotations are empty: the full scoring pass
never ran, so no `ReadabilityData`-based ranking influenced the result. -/
theorem c1_single_semantic_tag_shortcut (doc : VDocument) (nbTopCandidates : Int) :
    (∀ pa : DomPath,
      (GetElementsByTagName doc.documentElement [] "article").map Prod.fst = [pa] →
      FindMainCandidates doc nbTopCandidates = some ([pa], [])) ∧
    (∀ pm : DomPath,
      (GetElementsByTagName doc.documentElement [] "article").length ≠ 1 →
      (GetElementsByTagName doc.documentElement [] "main").map Prod.fst = [pm] →
      FindMainCandidates doc nbTopCandidates = some ([pm], [])) := by
  constructor
  · intro pa h
    have hl : (GetElementsByTagName doc.documentElement [] "article").length = 1 := by
      have := congrArg List.length h
      simpa using this
    simp only [FindMainCandidates, if_pos hl, h]
  · intro pm ha h
    have hl : (GetElementsByTagName doc.documentElement [] "main").length = 1 := by
      have := congrArg List.length h
      simpa using this
    simp only [FindMainCandidates, if_neg ha, if_pos hl, h]

/-- C1 witness: a document with exactly one `<article>` (child 1 of the body)
yields that element as the sole candidate with no annotations. -/
theorem c1_witness :
    (GetElementsByTagName
        (VNode.elem "html" []
          [VNode.elem "body" [] [VNode.elem "p" [] [], VNode.elem "article" [] []]])
        [] "article").map Prod.fst = [[0, 1]] ∧
    FindMainCandidates
      (VDocument.mk
        (VNode.elem "html" []
          [VNode.elem "body" [] [VNode.elem "p" [] [], VNode.elem "article" [] []]])
        (some [0])) 5 = some ([[0, 1]], []) :=
  ⟨by decide,
   (c1_single_semantic_tag_shortcut
      (VDocument.mk
        (VNode.elem "html" []
          [VNode.elem "body" [] [VNode.elem "p" [] [], VNode.elem "article" [] []]])
        (some [0])) 5).1 [0, 1] (by decide)⟩

theorem take_min_toNat_le {α : Type} (xs : List α) (L : Nat) (N : Int) (hN : 0 ≤ N) :
    ((xs.take ((min (L : Int) N).toNat)).length : Int) ≤ N := by
  have h1 : (xs.take ((min (L : Int) N).toNat)).length ≤ (min (L : Int) N).toNat :=
    List.length_take_le _ _
  have h2 : min (L : Int) N ≤ N := min_le_right _ _
  omega

theorem c2_aux (tc : List DomPath) (sm : ScoreMap) (bp : DomPath) (N : Int)
    (hN : 1 ≤ N) (hlen : (tc.length : Int) ≤ N) :
    ∃ l sm2, (if tc.length = 0 then some ([bp], sm) else some (tc, sm))
        = some (l, sm2) ∧ 1 ≤ l.length ∧ (l.length : Int) ≤ N := by
  by_cases h : tc.length = 0
  · exact ⟨[bp], sm, by simp [h], by simp, by simpa using hN⟩
  · exact ⟨tc, sm, by simp [h], by omega, hlen⟩

/-- C2: for every document whose body resolves to an element and every
`N ≥ 1`, `FindMainCandidates` yields between 1 and `N` candidates inclusive:
it never returns an empty list (the body is the fallback) and never more than
`N` elements. -/
theorem c2_candidate_count_bounds (doc : VDocument) (N : Int) (hN : 1 ≤ N)
    (bp : DomPath) (bt : String) (ba : List (String × String)) (bcs : List VNode)
    (hbody : doc.body = some bp)
    (hres : getNode? doc.documentElement bp = some (.elem bt ba bcs)) :
    ∃ l sm, FindMainCandidates doc N = some (l, sm) ∧
      1 ≤ l.length ∧ (l.length : Int) ≤ N := by
  have hnb : ¬ (N ≤ 0) := by omega
  by_cases ha : (GetElementsByTagName doc.documentElement [] "article").length = 1
  · refine ⟨(GetElementsByTagName doc.documentElement [] "article").map Prod.fst, [],
      ?_, ?_, ?_⟩
    · simp only [FindMainCandidates, if_pos ha]
    · simp [ha]
    · simp [ha]
      omega
  · by_cases hm : (GetElementsByTagName doc.documentElement [] "main").length = 1
    · refine ⟨(GetElementsByTagName doc.documentElement [] "main").map Prod.fst, [],
        ?_, ?_, ?_⟩
      · simp only [FindMainCandidates, if_neg ha, if_pos hm]
      · simp [hm]
      · simp [hm]
        omega
    · simp only [FindMainCandidates, if_neg hnb, if_neg ha, if_neg hm, hbody, hres]
      apply c2_aux _ _ _ _ hN
      apply take_min_toNat_le
      omega

/-- C2 witness: the empty-body document with `N = 5` yields the body as the
single candidate, within the bounds. -/
theorem c2_witness :
    ∃ l sm,
      FindMainCandidates
        (VDocument.mk (VNode.elem "html" [] [VNode.elem "body" [] []]) (some [0])) 5
        = some (l, sm) ∧ 1 ≤ l.length ∧ (l.length : Int) ≤ 5 :=
  c2_candidate_count_bounds
    (VDocument.mk (VNode.elem "html" [] [VNode.elem "body" [] []]) (some [0]))
    5 (by norm_num) [0] "body" [] [] rfl rfl

theorem extractContent_forced (doc : VDocument) (opts : ReadabilityOptions)
    (pt : PageType) (r : ReadabilityArticle)
    (hf : opts.ForcedPageType = some pt)
    (h : ExtractContent doc opts = some r) : r.PageTypeR = pt := by
  simp only [ExtractContent, hf] at h
  split at h
  · exact absurd h (by simp)
  · split at h
    · exact absurd h (by simp)
    · split at h
      · exact absurd h (by simp)
      · rw [Option.some.injEq] at h
        subst h
        rfl

/-- C3: whenever the forced page type option is unset, a successful `Extract`
reports page type `article`: `Extract` substitutes `article` as the forced
page type before calling `ExtractContent`, so the classifier is never reached
through this entry point. -/
theorem c3_forced_article_page_type (doc : VDocument) (opts : ReadabilityOptions)
    (r : ReadabilityArticle)
    (hf : opts.ForcedPageType = none)
    (h : Extract doc opts = some r) : r.PageTypeR = PageType.article := by
  simp only [Extract, hf] at h
  exact extractContent_forced _ _ _ _ rfl h

/-- C3 witness: on the empty-body document with default options, `Extract`
succeeds and reports page type `article`. -/
theorem c3_witness :
    ∃ r, Extract docScenarioC DefaultOptions = some r ∧
      r.PageTypeR = PageType.article := by
  refine ⟨ReadabilityArticle.mk none 0 PageType.article none none [], rfl, ?_⟩
  exact c3_forced_article_page_type docScenarioC DefaultOptions _ rfl rfl

/-- C4: on the empty-body document `<html><body></body></html>`,
`FindMainCandidates` returns exactly the body as its single candidate, and
`ExtractContent` with the default options (threshold 500, five top candidates,
no forced page type) returns page type `other` with a null content root. -/
theorem c4_empty_body_scenario :
    FindMainCandidates docScenarioC 5 = some ([[0]], []) ∧
      ∃ r, ExtractContent docScenarioC DefaultOptions = some r ∧
        r.PageTypeR = PageType.other ∧ r.Root = none := by
  exact ⟨rfl, ReadabilityArticle.mk none 0 PageType.other none none [], rfl, rfl, rfl⟩

set_option maxRecDepth 20000 in
/-- C6: counterexample to the claimed score-parity rule.  In `docC6` the
premises of the claim hold — two candidates with equal scores (parity ratio
`1 > 4/5`), and the body's link density in the claimed sense (the anchor-text
fraction computed by `GetLinkDensity`, here `60/209`) exceeds `1/4` — yet the
classifier returns `article`, because the code's score-parity rule measures
the body's link density as link count over text length (`1/209`), which does
not exceed `1/4`. -/
theorem c6_counterexample :
    getNode? docC6.documentElement [0] = some c6BodyNode ∧
    getNode? docC6.documentElement [0, 1] = some c6TopNode ∧
    c6Candidates.length ≥ 2 ∧
    (c6Scores.lookup [0, 0]).getD 0 > 4 / 5 * ((c6Scores.lookup [0, 1]).getD 0) ∧
    (GetLinkDensity c6BodyNode > 1 / 4 ∨ GetLinkDensity c6TopNode > 3 / 10) ∧
    ClassifyPageType docC6 c6Scores c6Candidates 500 "" = some PageType.article := by
  refine ⟨rfl, rfl, by decide, ?_, Or.inl ?_, ?_⟩
  · have h1 : (c6Scores.lookup ([0, 0] : DomPath)).getD 0 = (1 : ℚ) := rfl
    have h2 : (c6Scores.lookup ([0, 1] : DomPath)).getD 0 = (1 : ℚ) := rfl
    rw [h1, h2]
    norm_num
  · with_unfolding_all decide
  · with_unfolding_all decide

/-- C6 (amended): the score-parity rule of `ClassifyPageType` with the body
link density as the code computes it.  If execution reaches the rule — no URL,
at least two candidates, the body resolves, the index-page heuristics and the
semantic-tag branch and the length/density/heading rule all decline — and the
second score exceeds `4/5` of the top score, and either the body's link count
over its text length exceeds `1/4` or the top candidate's `GetLinkDensity`
exceeds `3/10`, then the classifier returns `other`. -/
theorem c6_amended_score_parity (doc : VDocument) (scores : ScoreMap)
    (c0 c1 : DomPath) (rest : List DomPath) (charThreshold : Int)
    (bp : DomPath) (bt : String) (ba : List (String × String)) (bcs : List VNode)
    (topNode : VNode)
    (hct : 0 < charThreshold)
    (hbody : doc.body = some bp)
    (hbn : getNode? doc.documentElement bp = some (VNode.elem bt ba bcs))
    (hidx : hasIndexPageCharacteristics (VNode.elem bt ba bcs) bp = false)
    (htn : getNode? doc.documentElement c0 = some topNode)
    (hsem : IsSemanticTag topNode = false)
    (hs4 : ¬((utf8Len (GetInnerText topNode false) : Int) ≥ charThreshold ∧
        GetLinkDensity topNode ≤ 1 / 2 ∧
        headingCount (VNode.elem bt ba bcs) bp ≥ 1 ∧
        headingCount (VNode.elem bt ba bcs) bp ≤ 10))
    (hr : (if (scores.lookup c0).getD 0 > 0 then
        (scores.lookup c1).getD 0 / (scores.lookup c0).getD 0 else 1) > 4 / 5)
    (hd : bodyLinkDensity (VNode.elem bt ba bcs) bp > 1 / 4 ∨
        GetLinkDensity topNode > 3 / 10) :
    ClassifyPageType doc scores (c0 :: c1 :: rest) charThreshold ""
      = some PageType.other := by
  have hred : ClassifyPageType doc scores (c0 :: c1 :: rest) charThreshold ""
      = classifyByStructure doc scores (c0 :: c1 :: rest) charThreshold := by
    simp only [ClassifyPageType, bne_self_eq_false, Bool.false_eq_true, if_false]
    rw [if_neg (by omega : ¬ charThreshold ≤ 0)]
  rw [hred]
  simp only [classifyByStructure, hbody, hbn, htn, hidx, hsem, Bool.false_eq_true,
    if_false, List.getElem?_cons_succ, List.getElem?_cons_zero]
  rw [if_neg hs4]
  rw [if_pos (by simp : (c0 :: c1 :: rest).length ≥ 2)]
  rw [if_pos hr, if_pos hd]

set_option maxRecDepth 20000 in
/-- C6 witness for the amended rule: in `docC6W` the top candidate's own link
density is `60/161 > 3/10` and the candidates' scores tie, so the code's
score-parity rule fires and the classifier returns `other`. -/
theorem c6_amended_witness :
    ClassifyPageType docC6W [([0, 1], 1), ([0, 0], 1)] [[0, 1], [0, 0]] 500 ""
      = some PageType.other := by
  exact c6_amended_score_parity docC6W [([0, 1], 1), ([0, 0], 1)]
    [0, 1] [0, 0] [] 500 [0] "body" []
    [VNode.elem "h2" [] [VNode.text "Heading"], c6WTopNode] c6WTopNode
    (by norm_num) rfl rfl (by with_unfolding_all decide) rfl
    (by with_unfolding_all decide)
    (by with_unfolding_all decide)
    (by with_unfolding_all decide)
    (Or.inr (by with_unfolding_all decide))

mutual

theorem Prunes_refl : ∀ n, Prunes n n
  | .text s => Prunes.text s
  | .elem t a cs => Prunes.elem t a cs cs (PrunesList_refl cs)

theorem PrunesList_refl : ∀ cs, PrunesList cs cs
  | [] => PrunesList.nil
  | c :: cs => PrunesList.keep c c cs cs (Prunes_refl c) (PrunesList_refl cs)

end

mutual

theorem Prunes_pruneTree (drop : String → List (String × String) → Bool) :
    ∀ n, Prunes n (pruneTree drop n)
  | .text s => by
      rw [pruneTree]
      exact Prunes.text s
  | .elem t a cs => by
      rw [pruneTree]
      exact Prunes.elem t a cs _ (PrunesList_pruneChildren drop cs)

theorem PrunesList_pruneChildren (drop : String → List (String × String) → Bool) :
    ∀ cs, PrunesList cs (pruneChildren drop cs)
  | [] => by
      rw [pruneChildren]
      exact PrunesList.nil
  | .text s :: cs => by
      rw [pruneChildren]
      exact PrunesList.keep _ _ _ _ (Prunes.text s) (PrunesList_pruneChildren drop cs)
  | .elem t a gs :: cs => by
      rw [pruneChildren]
      by_cases h : drop t a
      · simp only [h, if_true]
        exact PrunesList.drop t a gs cs _ (PrunesList_pruneChildren drop cs)
      · simp only [h, if_false, Bool.false_eq_true]
        exact PrunesList.keep _ _ _ _ (Prunes_pruneTree drop (VNode.elem t a gs))
          (PrunesList_pruneChildren drop cs)

end

mutual

theorem Prunes_trans : ∀ {a b c : VNode}, Prunes a b → Prunes b c → Prunes a c
  | _, _, _, Prunes.text s, h2 => h2
  | _, _, _, Prunes.elem t a cs cs' h1, h2 => by
      cases h2 with
      | elem _ _ _ cs2 h2l => exact Prunes.elem t a cs cs2 (PrunesList_trans h1 h2l)

theorem PrunesList_trans : ∀ {cs ds es : List VNode},
    PrunesList cs ds → PrunesList ds es → PrunesList cs es
  | _, _, _, PrunesList.nil, h2 => h2
  | _, _, _, PrunesList.keep c c' cs cs' hP hL, h2 => by
      cases h2 with
      | keep _ c2 _ es2 hP2 hL2 =>
          exact PrunesList.keep c c2 cs es2 (Prunes_trans hP hP2) (PrunesList_trans hL hL2)
      | drop t a gs _ es2 hL2 =>
          cases hP with
          | elem _ _ cs0 _ hl0 =>
              exact PrunesList.drop t a cs0 cs _ (PrunesList_trans hL hL2)
  | _, _, _, PrunesList.drop t a gs cs cs' hL, h2 =>
      PrunesList.drop t a gs cs _ (PrunesList_trans hL h2)

end

mutual

theorem Prunes_removeChildAt : ∀ (n : VNode) (p : DomPath) {t a gs},
    getNode? n p = some (VNode.elem t a gs) → Prunes n (removeChildAt n p)
  | n, [], _, _, _, _ => by
      rw [removeChildAt]
      exact Prunes_refl n
  | .text s, _ :: _, _, _, _, _ => by
      rw [removeChildAt]
      exact Prunes.text s
  | .elem t0 a0 cs, i :: p, _, _, _, h => by
      rw [removeChildAt]
      rw [getNode?] at h
      exact Prunes.elem t0 a0 cs _ (PrunesList_removeChildAtList cs i p h)

theorem PrunesList_removeChildAtList : ∀ (cs : List VNode) (i : Nat) (p : DomPath) {t a gs},
    getNodeList? cs i p = some (VNode.elem t a gs) → PrunesList cs (removeChildAtList cs i p)
  | [], _, _, _, _, _, h => by
      rw [getNodeList?] at h
      exact absurd h (by simp)
  | c :: cs, 0, [], _, _, _, h => by
      rw [getNodeList?, getNode?] at h
      injection h with h1
      rw [removeChildAtList]
      subst h1
      exact PrunesList.drop _ _ _ cs cs (PrunesList_refl cs)
  | c :: cs, 0, q :: p, _, _, _, h => by
      rw [getNodeList?] at h
      rw [removeChildAtList]
      exact PrunesList.keep _ _ _ _ (Prunes_removeChildAt c (q :: p) h) (PrunesList_refl cs)
  | c :: cs, i + 1, p, _, _, _, h => by
      rw [getNodeList?] at h
      rw [removeChildAtList]
      exact PrunesList.keep _ _ _ _ (Prunes_refl c) (PrunesList_removeChildAtList cs i p h)

end

mutual

theorem Prunes_setSubtree : ∀ (n : VNode) (p : DomPath) {m m' : VNode},
    getNode? n p = some m → Prunes m m' → Prunes n (setSubtree n p m')
  | n, [], _, _, h, hp => by
      rw [setSubtree]
      rw [getNode?] at h
      injection h with h1
      rw [h1]
      exact hp
  | .text s, _ :: _, _, _, _, _ => by
      rw [setSubtree]
      exact Prunes.text s
  | .elem t a cs, i :: p, _, _, h, hp => by
      rw [setSubtree]
      rw [getNode?] at h
      exact Prunes.elem t a cs _ (PrunesList_setSubtreeList cs i p h hp)

theorem PrunesList_setSubtreeList : ∀ (cs : List VNode) (i : Nat) (p : DomPath) {m m' : VNode},
    getNodeList? cs i p = some m → Prunes m m' → PrunesList cs (setSubtreeList cs i p m')
  | [], _, _, _, _, h, _ => by
      rw [getNodeList?] at h
      exact absurd h (by simp)
  | c :: cs, 0, p, _, _, h, hp => by
      rw [getNodeList?] at h
      rw [setSubtreeList]
      exact PrunesList.keep _ _ _ _ (Prunes_setSubtree c p h hp) (PrunesList_refl cs)
  | c :: cs, i + 1, p, _, _, h, hp => by
      rw [getNodeList?] at h
      rw [setSubtreeList]
      exact PrunesList.keep _ _ _ _ (Prunes_refl c) (PrunesList_setSubtreeList cs i p h hp)

end

theorem prunes_removeTagPass (dd : VDocument) (tag : String) :
    Prunes dd.documentElement (removeTagPass dd tag).documentElement :=
  Prunes_pruneTree _ dd.documentElement

theorem prunes_removeUnwantedTags (dd : VDocument) :
    Prunes dd.documentElement (removeUnwantedTags dd).documentElement := by
  unfold removeUnwantedTags
  generalize tagsToRemove = l
  induction l generalizing dd with
  | nil => exact Prunes_refl _
  | cons tag rest ih =>
      simp only [List.foldl]
      exact Prunes_trans (prunes_removeTagPass dd tag) (ih _)

theorem prunes_removeAds (dd : VDocument) :
    Prunes dd.documentElement (removeAds dd).documentElement := by
  unfold removeAds
  split
  next => exact Prunes_refl _
  next bp hb =>
    split
    next bt ba bcs hg =>
      split_ifs with h
      · exact Prunes_removeChildAt dd.documentElement bp hg
      · exact Prunes_setSubtree dd.documentElement bp hg
          (Prunes_pruneTree _ (VNode.elem bt ba bcs))
    next => exact Prunes_refl _

/-- C10: preprocessing only unlinks whole element subtrees.  The result tree
is related to the input tree by `Prunes`: no node is created, every surviving
element keeps its tag and attributes, every surviving text node keeps its
content, and the order of the remaining children is preserved; only element
subtrees may disappear. -/
theorem c10_preprocess_frame (d : VDocument) :
    Prunes d.documentElement (PreprocessDocument d).documentElement := by
  unfold PreprocessDocument
  exact Prunes_trans (prunes_removeUnwantedTags d) (prunes_removeAds _)

theorem noDrops_text (drop : String → List (String × String) → Bool) (s : String) :
    noDrops drop (VNode.text s) = true := by rw [noDrops]

theorem noDrops_elem (drop : String → List (String × String) → Bool)
    (t : String) (a : List (String × String)) (cs : List VNode) :
    noDrops drop (VNode.elem t a cs) = noDropsList drop cs := by rw [noDrops]

theorem noDropsList_nil (drop : String → List (String × String) → Bool) :
    noDropsList drop [] = true := by rw [noDropsList]

theorem noDropsList_text (drop : String → List (String × String) → Bool)
    (s : String) (cs : List VNode) :
    noDropsList drop (VNode.text s :: cs) = noDropsList drop cs := by
  rw [noDropsList.eq_def]
  simp

theorem noDropsList_elem (drop : String → List (String × String) → Bool)
    (t : String) (a : List (String × String)) (gs cs : List VNode) :
    noDropsList drop (VNode.elem t a gs :: cs)
      = (!drop t a && noDropsList drop gs && noDropsList drop cs) := by
  rw [noDropsList.eq_def]
  simp only [noDrops_elem, Bool.and_assoc]

mutual

theorem noDrops_pruneTree (drop : String → List (String × String) → Bool) :
    ∀ n, noDrops drop (pruneTree drop n) = true
  | .text s => by
      rw [pruneTree]
      exact noDrops_text drop s
  | .elem t a cs => by
      rw [pruneTree, noDrops_elem]
      exact noDropsList_pruneChildren drop cs

theorem noDropsList_pruneChildren (drop : String → List (String × String) → Bool) :
    ∀ cs, noDropsList drop (pruneChildren drop cs) = true
  | [] => by
      rw [pruneChildren]
      exact noDropsList_nil drop
  | .text s :: cs => by
      rw [pruneChildren, noDropsList_text]
      exact noDropsList_pruneChildren drop cs
  | .elem t a gs :: cs => by
      rw [pruneChildren]
      cases hd : drop t a with
      | true =>
          simp only [if_true]
          exact noDropsList_pruneChildren drop cs
      | false =>
          simp only [Bool.false_eq_true, if_false]
          rw [pruneTree, noDropsList_elem]
          simp only [hd, Bool.not_false, Bool.true_and, Bool.and_eq_true]
          exact ⟨noDropsList_pruneChildren drop gs, noDropsList_pruneChildren drop cs⟩

end

mutual

theorem pruneTree_of_noDrops (drop : String → List (String × String) → Bool) :
    ∀ n, noDrops drop n = true → pruneTree drop n = n
  | .text s, _ => by rw [pruneTree]
  | .elem t a cs, h => by
      rw [noDrops_elem] at h
      rw [pruneTree, pruneChildren_of_noDropsList drop cs h]

theorem pruneChildren_of_noDropsList (drop : String → List (String × String) → Bool) :
    ∀ cs, noDropsList drop cs = true → pruneChildren drop cs = cs
  | [], _ => by rw [pruneChildren]
  | .text s :: cs, h => by
      rw [noDropsList_text] at h
      rw [pruneChildren, pruneChildren_of_noDropsList drop cs h]
  | .elem t a gs :: cs, h => by
      rw [noDropsList_elem] at h
      simp only [Bool.and_eq_true, Bool.not_eq_true'] at h
      obtain ⟨⟨h1, h2⟩, h3⟩ := h
      rw [pruneChildren]
      simp only [h1, Bool.false_eq_true, if_false]
      rw [pruneTree, pruneChildren_of_noDropsList drop gs h2,
        pruneChildren_of_noDropsList drop cs h3]

end

mutual

theorem noDrops_pruneTree_other (drop drop2 : String → List (String × String) → Bool) :
    ∀ n, noDrops drop n = true → noDrops drop (pruneTree drop2 n) = true
  | .text s, _ => by
      rw [pruneTree]
      exact noDrops_text drop s
  | .elem t a cs, h => by
      rw [noDrops_elem] at h
      rw [pruneTree, noDrops_elem]
      exact noDropsList_pruneChildren_other drop drop2 cs h

theorem noDropsList_pruneChildren_other
    (drop drop2 : String → List (String × String) → Bool) :
    ∀ cs, noDropsList drop cs = true → noDropsList drop (pruneChildren drop2 cs) = true
  | [], _ => by
      rw [pruneChildren]
      exact noDropsList_nil drop
  | .text s :: cs, h => by
      rw [noDropsList_text] at h
      rw [pruneChildren, noDropsList_text]
      exact noDropsList_pruneChildren_other drop drop2 cs h
  | .elem t a gs :: cs, h => by
      rw [noDropsList_elem] at h
      simp only [Bool.and_eq_true, Bool.not_eq_true'] at h
      obtain ⟨⟨h1, h2⟩, h3⟩ := h
      rw [pruneChildren]
      cases hd : drop2 t a with
      | true =>
          simp only [if_true]
          exact noDropsList_pruneChildren_other drop drop2 cs h3
      | false =>
          simp only [Bool.false_eq_true, if_false]
          rw [pruneTree, noDropsList_elem]
          simp only [h1, Bool.not_false, Bool.true_and, Bool.and_eq_true]
          exact ⟨noDropsList_pruneChildren_other drop drop2 gs h2,
            noDropsList_pruneChildren_other drop drop2 cs h3⟩

end

mutual

theorem noDrops_getNode (drop : String → List (String × String) → Bool) :
    ∀ n p m, noDrops drop n = true → getNode? n p = some m → noDrops drop m = true
  | n, [], m, h, hg => by
      rw [getNode?] at hg
      injection hg with h1
      rw [← h1]
      exact h
  | .text s, _ :: _, m, _, hg => by
      rw [getNode?] at hg
      exact absurd hg (by simp)
  | .elem t a cs, i :: p, m, h, hg => by
      rw [noDrops_elem] at h
      rw [getNode?] at hg
      exact noDropsList_getNodeList drop cs i p m h hg

theorem noDropsList_getNodeList (drop : String → List (String × String) → Bool) :
    ∀ cs i p m, noDropsList drop cs = true → getNodeList? cs i p = some m →
      noDrops drop m = true
  | [], _, _, _, _, hg => by
      rw [getNodeList?] at hg
      exact absurd hg (by simp)
  | .text s :: cs, 0, p, m, h, hg => by
      rw [getNodeList?] at hg
      exact noDrops_getNode drop (VNode.text s) p m (noDrops_text drop s) hg
  | .elem t a gs :: cs, 0, p, m, h, hg => by
      rw [getNodeList?] at hg
      rw [noDropsList_elem] at h
      simp only [Bool.and_eq_true] at h
      refine noDrops_getNode drop (VNode.elem t a gs) p m ?_ hg
      rw [noDrops_elem]
      exact h.1.2
  | c :: cs, i + 1, p, m, h, hg => by
      rw [getNodeList?] at hg
      have h2 : noDropsList drop cs = true := by
        cases c with
        | text s => rw [noDropsList_text] at h; exact h
        | elem t a gs =>
            rw [noDropsList_elem] at h
            simp only [Bool.and_eq_true] at h
            exact h.2
      exact noDropsList_getNodeList drop cs i p m h2 hg

end

mutual

theorem noDrops_removeChildAt (drop : String → List (String × String) → Bool) :
    ∀ n p, noDrops drop n = true → noDrops drop (removeChildAt n p) = true
  | n, [], h => by
      rw [removeChildAt]
      exact h
  | .text s, _ :: _, _ => by
      rw [removeChildAt]
      exact noDrops_text drop s
  | .elem t a cs, i :: p, h => by
      rw [noDrops_elem] at h
      rw [removeChildAt, noDrops_elem]
      exact noDropsList_removeChildAtList drop cs i p h

theorem noDropsList_removeChildAtList (drop : String → List (String × String) → Bool) :
    ∀ cs i p, noDropsList drop cs = true →
      noDropsList drop (removeChildAtList cs i p) = true
  | [], _, _, _ => by
      rw [removeChildAtList]
      exact noDropsList_nil drop
  | c :: cs, 0, [], h => by
      rw [removeChildAtList]
      cases c with
      | text s =>
          rw [noDropsList_text] at h
          exact h
      | elem t a gs =>
          rw [noDropsList_elem] at h
          simp only [Bool.and_eq_true] at h
          exact h.2
  | c :: cs, 0, q :: p, h => by
      rw [removeChildAtList]
      cases c with
      | text s =>
          rw [noDropsList_text] at h
          rw [removeChildAt, noDropsList_text]
          exact h
      | elem t a gs =>
          rw [noDropsList_elem] at h
          simp only [Bool.and_eq_true, Bool.not_eq_true'] at h
          obtain ⟨⟨h1, h2⟩, h3⟩ := h
          rw [removeChildAt, noDropsList_elem]
          simp only [h1, Bool.not_false, Bool.true_and, Bool.and_eq_true]
          exact ⟨noDropsList_removeChildAtList drop gs q p h2, h3⟩
  | c :: cs, i + 1, p, h => by
      rw [removeChildAtList]
      cases c with
      | text s =>
          rw [noDropsList_text] at h
          rw [noDropsList_text]
          exact noDropsList_removeChildAtList drop cs i p h
      | elem t a gs =>
          rw [noDropsList_elem] at h
          simp only [Bool.and_eq_true, Bool.not_eq_true'] at h
          obtain ⟨⟨h1, h2⟩, h3⟩ := h
          rw [noDropsList_elem]
          simp only [h1, Bool.not_false, Bool.true_and, Bool.and_eq_true]
          exact ⟨h2, noDropsList_removeChildAtList drop cs i p h3⟩

end

mutual

theorem noDrops_setSubtree (drop : String → List (String × String) → Bool) :
    ∀ n p t a cs cs', noDrops drop n = true →
      getNode? n p = some (VNode.elem t a cs) →
      noDrops drop (VNode.elem t a cs') = true →
      noDrops drop (setSubtree n p (VNode.elem t a cs')) = true
  | n, [], t, a, cs, cs', _, _, h' => by
      rw [setSubtree]
      exact h'
  | .text s, _ :: _, t, a, cs, cs', _, _, _ => by
      rw [setSubtree]
      exact noDrops_text drop s
  | .elem t0 a0 cs0, i :: p, t, a, cs, cs', h, hg, h' => by
      rw [noDrops_elem] at h
      rw [getNode?] at hg
      rw [setSubtree, noDrops_elem]
      exact noDropsList_setSubtreeList drop cs0 i p t a cs cs' h hg h'

theorem noDropsList_setSubtreeList (drop : String → List (String × String) → Bool) :
    ∀ csl i p t a cs cs', noDropsList drop csl = true →
      getNodeList? csl i p = some (VNode.elem t a cs) →
      noDrops drop (VNode.elem t a cs') = true →
      noDropsList drop (setSubtreeList csl i p (VNode.elem t a cs')) = true
  | [], _, _, _, _, _, _, _, hg, _ => by
      rw [getNodeList?] at hg
      exact absurd hg (by simp)
  | c :: csl, 0, p, t, a, cs, cs', h, hg, h' => by
      rw [getNodeList?] at hg
      rw [setSubtreeList]
      cases c with
      | text s =>
          cases p with
          | nil =>
              rw [getNode?] at hg
              exact absurd hg (by simp)
          | cons q p1 =>
              rw [getNode?] at hg
              exact absurd hg (by simp)
      | elem t0 a0 gs0 =>
          rw [noDropsList_elem] at h
          simp only [Bool.and_eq_true, Bool.not_eq_true'] at h
          obtain ⟨⟨h1, h2⟩, h3⟩ := h
          cases p with
          | nil =>
              rw [getNode?] at hg
              injection hg with hg1
              injection hg1 with e1 e2 e3
              subst e1
              subst e2
              rw [setSubtree, noDropsList_elem]
              rw [noDrops_elem] at h'
              simp only [h1, Bool.not_false, Bool.true_and, Bool.and_eq_true]
              exact ⟨h', h3⟩
          | cons q p1 =>
              rw [getNode?] at hg
              rw [setSubtree, noDropsList_elem]
              simp only [h1, Bool.not_false, Bool.true_and, Bool.and_eq_true]
              exact ⟨noDropsList_setSubtreeList drop gs0 q p1 t a cs cs' h2 hg h', h3⟩
  | c :: csl, i + 1, p, t, a, cs, cs', h, hg, h' => by
      rw [getNodeList?] at hg
      rw [setSubtreeList]
      cases c with
      | text s =>
          rw [noDropsList_text] at h
          rw [noDropsList_text]
          exact noDropsList_setSubtreeList drop csl i p t a cs cs' h hg h'
      | elem t0 a0 gs0 =>
          rw [noDropsList_elem] at h
          simp only [Bool.and_eq_true, Bool.not_eq_true'] at h
          obtain ⟨⟨h1, h2⟩, h3⟩ := h
          rw [noDropsList_elem]
          simp only [h1, Bool.not_false, Bool.true_and, Bool.and_eq_true]
          exact ⟨h2, noDropsList_setSubtreeList drop csl i p t a cs cs' h3 hg h'⟩

end

mutual

theorem prunePath_of_noDrops (drop : String → List (String × String) → Bool) :
    ∀ n p, noDrops drop n = true → (getNode? n p).isSome = true →
      prunePath drop n p = some p
  | n, [], _, _ => by rw [prunePath]
  | .text s, _ :: _, _, hg => by
      rw [getNode?] at hg
      simp at hg
  | .elem t a cs, i :: p, h, hg => by
      rw [noDrops_elem] at h
      rw [getNode?] at hg
      rw [prunePath]
      exact pruneChildrenPath_of_noDropsList drop cs i p h hg

theorem pruneChildrenPath_of_noDropsList (drop : String → List (String × String) → Bool) :
    ∀ cs i p, noDropsList drop cs = true → (getNodeList? cs i p).isSome = true →
      pruneChildrenPath drop cs i p = some (i :: p)
  | [], _, _, _, hg => by
      rw [getNodeList?] at hg
      simp at hg
  | .text s :: cs, 0, p, _, hg => by
      rw [getNodeList?] at hg
      cases p with
      | nil =>
          rw [pruneChildrenPath]
          simp
      | cons q p1 =>
          rw [getNode?] at hg
          simp at hg
  | .elem t a gs :: cs, 0, p, h, hg => by
      rw [getNodeList?] at hg
      rw [noDropsList_elem] at h
      simp only [Bool.and_eq_true, Bool.not_eq_true'] at h
      obtain ⟨⟨h1, h2⟩, h3⟩ := h
      rw [pruneChildrenPath]
      simp only [h1, Bool.false_eq_true, if_false]
      rw [prunePath_of_noDrops drop (VNode.elem t a gs) p (by rw [noDrops_elem]; exact h2) hg]
      rfl
  | .text s :: cs, i + 1, p, h, hg => by
      rw [getNodeList?] at hg
      rw [noDropsList_text] at h
      rw [pruneChildrenPath]
      rw [pruneChildrenPath_of_noDropsList drop cs i p h hg]
      rfl
  | .elem t a gs :: cs, i + 1, p, h, hg => by
      rw [getNodeList?] at hg
      rw [noDropsList_elem] at h
      simp only [Bool.and_eq_true, Bool.not_eq_true'] at h
      obtain ⟨⟨h1, h2⟩, h3⟩ := h
      rw [pruneChildrenPath]
      rw [pruneChildrenPath_of_noDropsList drop cs i p h3 hg]
      simp only [h1, Bool.false_eq_true, if_false]
      rfl

end

mutual

theorem getNode_pruneTree_of_prunePath (drop : String → List (String × String) → Bool) :
    ∀ n p q, prunePath drop n p = some q →
      (getNode? (pruneTree drop n) q).isSome = true
  | n, [], q, h => by
      rw [prunePath] at h
      injection h with h1
      rw [← h1, getNode?]
      rfl
  | .text s, _ :: _, q, h => by
      rw [prunePath] at h
      exact absurd h (by simp)
  | .elem t a cs, i :: p, q, h => by
      rw [prunePath] at h
      obtain ⟨j, q1, rfl, h2⟩ := getNodeList_pruneChildren_of_prunePath drop cs i p q h
      rw [pruneTree, getNode?]
      exact h2

theorem getNodeList_pruneChildren_of_prunePath (drop : String → List (String × String) → Bool) :
    ∀ cs i p q, pruneChildrenPath drop cs i p = some q →
      ∃ j q1, q = j :: q1 ∧ (getNodeList? (pruneChildren drop cs) j q1).isSome = true
  | [], _, _, q, h => by
      rw [pruneChildrenPath] at h
      exact absurd h (by simp)
  | .text s :: cs, 0, p, q, h => by
      rw [pruneChildrenPath] at h
      cases p with
      | nil =>
          simp only [List.isEmpty_nil, if_true] at h
          injection h with h1
          refine ⟨0, [], h1.symm, ?_⟩
          rw [pruneChildren, getNodeList?, getNode?]
          rfl
      | cons q0 p1 =>
          simp only [List.isEmpty_cons, Bool.false_eq_true, if_false] at h
          exact absurd h (by simp)
  | .elem t a gs :: cs, 0, p, q, h => by
      rw [pruneChildrenPath] at h
      cases hd : drop t a with
      | true =>
          simp only [hd, if_true] at h
          exact absurd h (by simp)
      | false =>
          simp only [hd, Bool.false_eq_true, if_false] at h
          obtain ⟨q1, hq1, rfl⟩ := Option.map_eq_some'.mp h
          refine ⟨0, q1, rfl, ?_⟩
          rw [pruneChildren]
          simp only [hd, Bool.false_eq_true, if_false]
          rw [getNodeList?]
          exact getNode_pruneTree_of_prunePath drop (VNode.elem t a gs) p q1 hq1
  | .text s :: cs, i + 1, p, q, h => by
      rw [pruneChildrenPath] at h
      obtain ⟨q0, hq0, rfl⟩ := Option.map_eq_some'.mp h
      obtain ⟨j, q1, rfl, h2⟩ := getNodeList_pruneChildren_of_prunePath drop cs i p q0 hq0
      refine ⟨j + 1, q1, rfl, ?_⟩
      rw [pruneChildren, getNodeList?]
      exact h2
  | .elem t a gs :: cs, i + 1, p, q, h => by
      rw [pruneChildrenPath] at h
      obtain ⟨q0, hq0, rfl⟩ := Option.map_eq_some'.mp h
      obtain ⟨j, q1, rfl, h2⟩ := getNodeList_pruneChildren_of_prunePath drop cs i p q0 hq0
      cases hd : drop t a with
      | true =>
          simp only [hd, if_true]
          rw [pruneChildren]
          simp only [hd, if_true]
          exact ⟨j + 0, q1, rfl, by simpa using h2⟩
      | false =>
          simp only [hd, Bool.false_eq_true, if_false]
          rw [pruneChildren]
          simp only [hd, Bool.false_eq_true, if_false]
          exact ⟨j + 1, q1, rfl, by rw [getNodeList?]; exact h2⟩

end

mutual

theorem getNode_setSubtree (nw : VNode) :
    ∀ n p, (getNode? n p).isSome = true → getNode? (setSubtree n p nw) p = some nw
  | n, [], _ => by rw [setSubtree, getNode?]
  | .text s, _ :: _, hg => by
      rw [getNode?] at hg
      simp at hg
  | .elem t a cs, i :: p, hg => by
      rw [getNode?] at hg
      rw [setSubtree, getNode?]
      exact getNodeList_setSubtreeList nw cs i p hg

theorem getNodeList_setSubtreeList (nw : VNode) :
    ∀ cs i p, (getNodeList? cs i p).isSome = true →
      getNodeList? (setSubtreeList cs i p nw) i p = some nw
  | [], _, _, hg => by
      rw [getNodeList?] at hg
      simp at hg
  | c :: cs, 0, p, hg => by
      rw [getNodeList?] at hg
      rw [setSubtreeList, getNodeList?]
      exact getNode_setSubtree nw c p hg
  | c :: cs, i + 1, p, hg => by
      rw [getNodeList?] at hg
      rw [setSubtreeList, getNodeList?]
      exact getNodeList_setSubtreeList nw cs i p hg

end

mutual

theorem setSubtree_getNode (m : VNode) :
    ∀ n p, getNode? n p = some m → setSubtree n p m = n
  | n, [], h => by
      rw [getNode?] at h
      injection h with h1
      rw [setSubtree, h1]
  | .text s, _ :: _, _ => by rw [setSubtree]
  | .elem t a cs, i :: p, h => by
      rw [getNode?] at h
      rw [setSubtree, setSubtreeList_getNodeList m cs i p h]

theorem setSubtreeList_getNodeList (m : VNode) :
    ∀ cs i p, getNodeList? cs i p = some m → setSubtreeList cs i p m = cs
  | [], _, _, h => by
      rw [getNodeList?] at h
      exact absurd h (by simp)
  | c :: cs, 0, p, h => by
      rw [getNodeList?] at h
      rw [setSubtreeList, setSubtree_getNode m c p h]
  | c :: cs, i + 1, p, h => by
      rw [getNodeList?] at h
      rw [setSubtreeList, setSubtreeList_getNodeList m cs i p h]

end

theorem bodyResolvable_removeTagPass (dd : VDocument) (tag : String) :
    BodyResolvable (removeTagPass dd tag) := by
  intro bp hb
  simp only [removeTagPass] at hb ⊢
  cases hd : dd.body with
  | none =>
      rw [hd] at hb
      exact absurd hb (by simp)
  | some bp0 =>
      rw [hd] at hb
      exact getNode_pruneTree_of_prunePath _ dd.documentElement bp0 bp hb

theorem bodyResolvable_foldTags : ∀ (l : List String) (dd : VDocument),
    BodyResolvable dd → BodyResolvable (l.foldl removeTagPass dd)
  | [], _, h => h
  | t :: rest, dd, _ => by
      simp only [List.foldl]
      exact bodyResolvable_foldTags rest (removeTagPass dd t)
        (bodyResolvable_removeTagPass dd t)

theorem bodyResolvable_removeUnwantedTags (dd : VDocument) :
    BodyResolvable (removeUnwantedTags dd) := by
  unfold removeUnwantedTags
  rw [tagsToRemove, List.foldl_cons]
  exact bodyResolvable_foldTags _ _ (bodyResolvable_removeTagPass dd _)

theorem noDrops_foldTags_pres : ∀ (l : List String) (dd : VDocument)
    (drop : String → List (String × String) → Bool),
    noDrops drop dd.documentElement = true →
    noDrops drop ((l.foldl removeTagPass dd).documentElement) = true
  | [], _, _, h => h
  | t :: rest, dd, drop, h => by
      simp only [List.foldl]
      refine noDrops_foldTags_pres rest _ drop ?_
      show noDrops drop (pruneTree (tagDrop t) dd.documentElement) = true
      exact noDrops_pruneTree_other drop (tagDrop t) _ h

theorem noDrops_foldTags_mem : ∀ (l : List String) (dd : VDocument) (tag : String),
    tag ∈ l → noDrops (tagDrop tag) ((l.foldl removeTagPass dd).documentElement) = true
  | [], _, tag, h => absurd h (List.not_mem_nil tag)
  | t :: rest, dd, tag, h => by
      simp only [List.foldl]
      rcases List.mem_cons.mp h with h1 | h2
      · subst h1
        refine noDrops_foldTags_pres rest (removeTagPass dd tag) _ ?_
        show noDrops (tagDrop tag) (pruneTree (tagDrop tag) dd.documentElement) = true
        exact noDrops_pruneTree _ _
      · exact noDrops_foldTags_mem rest (removeTagPass dd t) tag h2

theorem noDrops_removeUnwantedTags (dd : VDocument) (tag : String)
    (h : tag ∈ tagsToRemove) :
    noDrops (tagDrop tag) ((removeUnwantedTags dd).documentElement) = true := by
  unfold removeUnwantedTags
  exact noDrops_foldTags_mem tagsToRemove dd tag h

theorem bodyResolvable_removeAds (dd : VDocument) (h : BodyResolvable dd) :
    BodyResolvable (removeAds dd) := by
  unfold removeAds
  split
  next => exact h
  next bp hb =>
    split
    next bt ba bcs hg =>
      split_ifs with hc
      · intro bp2 hb2
        exact absurd hb2 (by simp)
      · intro bp2 hb2
        have hb3 : some bp = some bp2 := hb2
        injection hb3 with e
        subst e
        show (getNode? (setSubtree dd.documentElement bp
          (pruneTree (fun _ a => isLikelyAd a) (VNode.elem bt ba bcs))) bp).isSome = true
        rw [getNode_setSubtree _ dd.documentElement bp (by rw [hg]; rfl)]
        rfl
    next => exact h

theorem noDrops_removeAds (dd : VDocument)
    (drop : String → List (String × String) → Bool)
    (h : noDrops drop dd.documentElement = true) :
    noDrops drop ((removeAds dd).documentElement) = true := by
  unfold removeAds
  split
  next => exact h
  next bp hb =>
    split
    next bt ba bcs hg =>
      split_ifs with hc
      · exact noDrops_removeChildAt drop dd.documentElement bp h
      · show noDrops drop (setSubtree dd.documentElement bp
          (pruneTree (fun _ a => isLikelyAd a) (VNode.elem bt ba bcs))) = true
        rw [pruneTree]
        refine noDrops_setSubtree drop dd.documentElement bp bt ba bcs _ h hg ?_
        have hm : noDrops drop (VNode.elem bt ba bcs) = true :=
          noDrops_getNode drop dd.documentElement bp _ h hg
        have h2 := noDrops_pruneTree_other drop (fun _ a => isLikelyAd a)
          (VNode.elem bt ba bcs) hm
        rw [pruneTree] at h2
        exact h2
    next => exact h

theorem removeTagPass_id (dd : VDocument) (tag : String)
    (hnd : noDrops (tagDrop tag) dd.documentElement = true)
    (hres : BodyResolvable dd) :
    removeTagPass dd tag = dd := by
  cases dd with
  | mk root body =>
      cases body with
      | none =>
          show VDocument.mk (pruneTree (tagDrop tag) root) none = VDocument.mk root none
          rw [pruneTree_of_noDrops (tagDrop tag) root hnd]
      | some bp =>
          show VDocument.mk (pruneTree (tagDrop tag) root)
              (prunePath (tagDrop tag) root bp) = VDocument.mk root (some bp)
          rw [pruneTree_of_noDrops (tagDrop tag) root hnd,
            prunePath_of_noDrops (tagDrop tag) root bp hnd (hres bp rfl)]

theorem foldTags_id : ∀ (l : List String) (dd : VDocument),
    (∀ tag ∈ l, noDrops (tagDrop tag) dd.documentElement = true) →
    BodyResolvable dd →
    l.foldl removeTagPass dd = dd
  | [], _, _, _ => rfl
  | t :: rest, dd, h, hres => by
      simp only [List.foldl]
      rw [removeTagPass_id dd t (h t (List.mem_cons_self t rest)) hres]
      exact foldTags_id rest dd (fun tag htag => h tag (List.mem_cons_of_mem t htag)) hres

theorem removeUnwantedTags_id (dd : VDocument)
    (h : ∀ tag ∈ tagsToRemove, noDrops (tagDrop tag) dd.documentElement = true)
    (hres : BodyResolvable dd) :
    removeUnwantedTags dd = dd := by
  unfold removeUnwantedTags
  exact foldTags_id tagsToRemove dd h hres

theorem removeAds_removeAds (dd : VDocument) :
    removeAds (removeAds dd) = removeAds dd := by
  cases hb : dd.body with
  | none =>
      have h1 : removeAds dd = dd := by
        unfold removeAds
        simp only [hb]
      rw [h1, h1]
  | some bp =>
      cases hg : getNode? dd.documentElement bp with
      | none =>
          have h1 : removeAds dd = dd := by
            unfold removeAds
            simp only [hb, hg]
          rw [h1, h1]
      | some m =>
          cases m with
          | text s =>
              have h1 : removeAds dd = dd := by
                unfold removeAds
                simp only [hb, hg]
              rw [h1, h1]
          | elem bt ba bcs =>
              by_cases hc : isLikelyAd ba ∧ bp ≠ []
              · have h1 : removeAds dd
                    = VDocument.mk (removeChildAt dd.documentElement bp) none := by
                  unfold removeAds
                  simp only [hb, hg]
                  rw [if_pos hc]
                rw [h1]
                unfold removeAds
                simp only []
              · have h1 : removeAds dd = VDocument.mk
                    (setSubtree dd.documentElement bp
                      (pruneTree (fun _ a => isLikelyAd a) (VNode.elem bt ba bcs)))
                    (some bp) := by
                  unfold removeAds
                  simp only [hb, hg]
                  rw [if_neg hc]
                have hg2 : getNode? (setSubtree dd.documentElement bp
                      (pruneTree (fun _ a => isLikelyAd a) (VNode.elem bt ba bcs))) bp
                    = some (pruneTree (fun _ a => isLikelyAd a) (VNode.elem bt ba bcs)) :=
                  getNode_setSubtree _ dd.documentElement bp (by rw [hg]; rfl)
                have hg2p := hg2
                nth_rewrite 2 [pruneTree] at hg2p
                rw [h1]
                unfold removeAds
                simp only [hg2p]
                rw [if_neg hc]
                simp only [pruneTree]
                rw [pruneChildren_of_noDropsList _ _ (noDropsList_pruneChildren _ bcs)]
                have hg2f := hg2
                simp only [pruneTree] at hg2f
                rw [setSubtree_getNode _ _ bp hg2f]

/-- C9: preprocessing is idempotent.  Running `PreprocessDocument` a second
time changes nothing: the first run leaves a tree with no removable noise-tag
elements and no removable ad elements reachable, so every removal pass of the
second run is the identity and the tracked body path is returned unchanged. -/
theorem c9_preprocess_idempotent (d : VDocument) :
    PreprocessDocument (PreprocessDocument d) = PreprocessDocument d := by
  unfold PreprocessDocument
  have hres1 : BodyResolvable (removeUnwantedTags d) := bodyResolvable_removeUnwantedTags d
  have hres2 : BodyResolvable (removeAds (removeUnwantedTags d)) :=
    bodyResolvable_removeAds _ hres1
  have hnd2 : ∀ tag ∈ tagsToRemove,
      noDrops (tagDrop tag) ((removeAds (removeUnwantedTags d)).documentElement) = true :=
    fun tag h => noDrops_removeAds _ _ (noDrops_removeUnwantedTags d tag h)
  rw [removeUnwantedTags_id _ hnd2 hres2]
  exact removeAds_removeAds _
